import Mathlib

/-!
Verification of the markup template code generator
(`markup-proc-macro/src/generate.rs`).

The source lowers a template AST (`Node` = Element / Text / If / For) into a
token stream via a `Builder` that accumulates static text in a string buffer
and flushes it as a single `__writer.write_str(..)?` statement whenever a
dynamic construct is emitted.  We embed:

* the AST (`SynExpr`, `Attribute`, `Text`, `Node`, `Element`, `If`,
  `IfClause`, `For`), with `syn::Expr` abstracted to "string literal or
  opaque", and opaque expressions / patterns named by natural numbers;
* the builder (`Builder` with `raw`, `str`, `expr`, `extend`, `paren`,
  `finish`) over a token type `Frag` in which each token run the source
  passes to `extend` (such as the tokens of `quote!(if #test)`) is one
  constructor, and a brace group is `Frag.block`;
* the tree walk (`genNodes` and friends), one function per `Generate` impl;
* an interpreter `exec` for the generated token stream giving it the
  semantics the generated Rust code has (`if`/`else if`/`else` chains,
  `for` loops, `?` error propagation on writes), against an environment
  that fixes the truth value of opaque tests, the writes performed by
  opaque rendered expressions, iteration counts of opaque iterables, and
  which sink writes fail.
-/

namespace Markup

/-- A `syn::Expr` as the generator sees it: either a string literal with a
known value (`syn::Expr::Lit` with `syn::Lit::Str`), or any other expression,
abstracted to an opaque identifier. -/
inductive SynExpr where
  | litStr (s : String)
  | other (d : Nat)
deriving DecidableEq

/-- `ast::Attribute { name, value, bool }`. -/
structure Attribute where
  name : String
  value : SynExpr
  bool : Bool
deriving DecidableEq

/-- `ast::Text`: literal string or expression. -/
inductive Text where
  | string (s : String)
  | expr (e : SynExpr)
deriving DecidableEq

mutual
/-- `ast::Node`: tagged union of the four node kinds. -/
inductive Node where
  | element (e : Element)
  | text (t : Text)
  | if_ (i : If)
  | for_ (f : For)

/-- `ast::Element { name, id, classes, attributes, children, close }`. -/
inductive Element where
  | mk (name : String) (id : Option SynExpr) (classes : List SynExpr)
       (attributes : List Attribute) (children : List Node) (close : Bool)

/-- `ast::If { clauses, default }`. -/
inductive If where
  | mk (clauses : List IfClause) (default : Option (List Node))

/-- `ast::IfClause { test, consequent }`. -/
inductive IfClause where
  | mk (test : SynExpr) (consequent : List Node)

/-- `ast::For { pat, expr, body }`, the pattern abstracted to an opaque id. -/
inductive For where
  | mk (pat : Nat) (expr : SynExpr) (body : List Node)
end

/-- One token run in the generated stream.  `writeLit s` is the statement
`__writer.write_str(s)?;`, `renderExpr d` is
`markup::Render::render(&(expr_d), __writer)?;`, the head constructors are
the token runs `if #t`, `else if #t`, `else`, `for #pat in #e` passed to
`Builder::extend`, and `block` is a brace-delimited `proc_macro2::Group`. -/
inductive Frag where
  | writeLit (s : String)
  | renderExpr (d : Nat)
  | ifHead (t : SynExpr)
  | elseIfHead (t : SynExpr)
  | elseHead
  | forHead (p : Nat) (e : SynExpr)
  | block (body : List Frag)

/-- `struct Builder { tokens: Vec<TokenTree>, buffer: String }`. -/
structure Builder where
  tokens : List Frag
  buffer : String

/-- `Builder::default()`. -/
def Builder.empty : Builder := ⟨[], ""⟩

/-- `Builder::raw`: push unescaped text onto the buffer. -/
def Builder.raw (b : Builder) (s : String) : Builder :=
  { b with buffer := b.buffer ++ s }

/-- The per-character body of the loop in `Builder::str`: push the escape of
one character onto the accumulated buffer. -/
def pushEsc (acc : String) (ch : Char) : String :=
  match ch with
  | '&' => acc ++ "&amp;"
  | '<' => acc ++ "&lt;"
  | '>' => acc ++ "&gt;"
  | '"' => acc ++ "&quot;"
  | _ => acc.push ch

/-- `Builder::str`: escape `str` character by character onto the buffer. -/
def Builder.str (b : Builder) (s : String) : Builder :=
  { b with buffer := s.data.foldl pushEsc b.buffer }

/-- `Builder::extend`: flush the buffer (if non-empty) as one
`write_str` statement, then append the given token runs. -/
def Builder.extend (b : Builder) (fs : List Frag) : Builder :=
  let b1 := if b.buffer.isEmpty then b
            else { tokens := b.tokens ++ [Frag.writeLit b.buffer], buffer := "" }
  { b1 with tokens := b1.tokens ++ fs }

/-- `Builder::expr`: fold a string-literal expression into the buffer via
`str`; otherwise emit a dynamic render statement via `extend`. -/
def Builder.expr (b : Builder) (e : SynExpr) : Builder :=
  match e with
  | .litStr s => b.str s
  | .other d => b.extend [Frag.renderExpr d]

/-- `Builder::finish`: final flush (extend with nothing), return the tokens. -/
def Builder.finish (b : Builder) : List Frag :=
  (b.extend []).tokens

/-- `Builder::paren`: push the finished tokens of a builder that was run on
the closure's body as one brace group.  (At every call site the closure is
run on a fresh `Builder::default()`; we take the resulting builder.) -/
def Builder.paren (b : Builder) (inner : Builder) : Builder :=
  { b with tokens := b.tokens ++ [Frag.block inner.finish] }

/-- The class loop in `<Element as Generate>::generate`: classes joined by a
single (escaped) space, no space before the first. -/
def genClasses (b : Builder) (first : Bool) : List SynExpr → Builder
  | [] => b
  | c :: rest =>
    let b := if first then b else b.str " "
    genClasses (b.expr c) false rest

/-- The `if let Some(id) = id` block of `<Element as Generate>::generate`:
emit ` id="` + expression + `"` when an id is present. -/
def genId (b : Builder) : Option SynExpr → Builder
  | some i => ((b.raw " id=\"").expr i).raw "\""
  | none => b

mutual
/-- `<Vec<T> as Generate>::generate` at `Node`. -/
def genNodes (b : Builder) : List Node → Builder
  | [] => b
  | n :: rest => genNodes (genNode b n) rest

/-- `<Node as Generate>::generate`. -/
def genNode (b : Builder) : Node → Builder
  | .element e => genElement b e
  | .text t => genText b t
  | .if_ i => genIf b i
  | .for_ f => genFor b f

/-- `<Text as Generate>::generate`. -/
def genText (b : Builder) : Text → Builder
  | .string s => b.str s
  | .expr e => b.expr e

/-- `<Element as Generate>::generate`. -/
def genElement (b : Builder) : Element → Builder
  | .mk name id classes attributes children close =>
    let b := b.raw "<"
    let b := b.str name
    let b := genId b id
    let b := if classes.isEmpty then b
             else (genClasses (b.raw " class=\"") true classes).raw "\""
    let b := genAttrs b attributes
    let b := b.raw ">"
    let b := genNodes b children
    if close then ((b.raw "</").str name).raw ">" else b

/-- The attribute loop in `<Element as Generate>::generate`. -/
def genAttrs (b : Builder) : List Attribute → Builder
  | [] => b
  | ⟨name, value, bool⟩ :: rest =>
    let b := if bool
      then (b.extend [Frag.ifHead value]).paren ((Builder.empty.str " ").str name)
      else ((((b.str " ").str name).raw "=\"").expr value).raw "\""
    genAttrs b rest

/-- `<If as Generate>::generate`. -/
def genIf (b : Builder) : If → Builder
  | .mk clauses default =>
    let b := genIfClauses b true clauses
    match default with
    | some d => (b.extend [Frag.elseHead]).paren (genNodes Builder.empty d)
    | none => b

/-- The clause loop in `<If as Generate>::generate`, with its `first` flag. -/
def genIfClauses (b : Builder) (first : Bool) : List IfClause → Builder
  | [] => b
  | .mk test consequent :: rest =>
    let hd := if first then Frag.ifHead test else Frag.elseIfHead test
    genIfClauses ((b.extend [hd]).paren (genNodes Builder.empty consequent)) false rest

/-- `<For as Generate>::generate`. -/
def genFor (b : Builder) : For → Builder
  | .mk pat expr body =>
    (b.extend [Frag.forHead pat expr]).paren (genNodes Builder.empty body)
end

/-- The full token stream generated for a template body, as spliced into the
`Display::fmt` implementation by `<Struct as ToTokens>::to_tokens`
(`let built = builder.finish()` on a default builder after
`nodes.generate`). -/
def built (ns : List Node) : List Frag := Builder.finish (genNodes Builder.empty ns)

/-! ## Specification-side escaping

`escC` maps one character to its replacement, following the spec's table;
`escStr` applies it character by character, in order, concatenating the
results. -/

/-- One character's escape: the four reserved markup characters become
entities, every other character stands for itself. -/
def escC (c : Char) : String :=
  match c with
  | '&' => "&amp;"
  | '<' => "&lt;"
  | '>' => "&gt;"
  | '"' => "&quot;"
  | _ => String.singleton c

/-- Concatenation of a list of strings. -/
def joinS : List String → String
  | [] => ""
  | s :: r => s ++ joinS r

/-- Escaping a string: each character replaced independently, in order. -/
def escStr (s : String) : String := joinS (s.data.map escC)

theorem pushEsc_eq (acc : String) (c : Char) : pushEsc acc c = acc ++ escC c := by
  unfold pushEsc escC
  split
  · rfl
  · rfl
  · rfl
  · rfl
  · apply String.ext
    simp [String.data_append, String.data_push, String.singleton]

theorem foldl_pushEsc (cs : List Char) : ∀ acc : String,
    cs.foldl pushEsc acc = acc ++ joinS (cs.map escC) := by
  induction cs with
  | nil => intro acc; simp [joinS, String.append_empty]
  | cons c cs ih =>
    intro acc
    simp only [List.foldl_cons, List.map_cons, joinS]
    rw [pushEsc_eq, ih, String.append_assoc]

/-- `Builder.str` appends exactly the escape of its argument to the buffer
and touches nothing else. -/
theorem str_buffer (b : Builder) (s : String) :
    Builder.str b s = { b with buffer := b.buffer ++ escStr s } := by
  unfold Builder.str escStr
  rw [foldl_pushEsc]

/-- `Builder.str` coincides with `Builder.raw` applied to the escaped text. -/
theorem str_eq_raw (b : Builder) (s : String) :
    Builder.str b s = Builder.raw b (escStr s) := by
  rw [str_buffer]; rfl

/-- The tokens a flush of buffer contents `buf` contributes: one `write_str`
statement when `buf` is non-empty, nothing when it is empty. -/
def flushF (buf : String) : List Frag :=
  if buf.isEmpty then [] else [Frag.writeLit buf]

theorem extend_tokens (b : Builder) (fs : List Frag) :
    Builder.extend b fs = ⟨b.tokens ++ flushF b.buffer ++ fs, ""⟩ := by
  unfold Builder.extend flushF
  by_cases h : b.buffer.isEmpty
  · simp only [h, if_true, List.append_nil]
    have hb : b.buffer = "" := (String.isEmpty_iff b.buffer).mp h
    simp [hb]
  · simp [h]

theorem finish_tokens (b : Builder) :
    Builder.finish b = b.tokens ++ flushF b.buffer := by
  unfold Builder.finish
  rw [extend_tokens]
  simp

theorem flushF_empty : flushF "" = [] := rfl

theorem genElement_def (b : Builder) (name : String) (id : Option SynExpr)
    (classes : List SynExpr) (attrs : List Attribute) (children : List Node)
    (close : Bool) :
    genElement b (.mk name id classes attrs children close)
      = (let b1 := genId ((b.raw "<").str name) id
         let b2 := if classes.isEmpty then b1
                   else (genClasses (b1.raw " class=\"") true classes).raw "\""
         let b3 := genNodes ((genAttrs b2 attrs).raw ">") children
         if close then ((b3.raw "</").str name).raw ">" else b3) := rfl

/-! ## The builder call trace model

A lowering run drives the builder through a sequence of calls: buffer
appends (`raw`/`str`/literal-folded `expr`, abstracted as `Ev.app` with the
already-escaped content) and dynamic emissions (`extend` with a dynamic
token run, `Ev.dyn`; a `paren` immediately after an `extend` behaves as a
further `extend` of the brace group, since the buffer is then empty). -/

/-- One builder call in a lowering run. -/
inductive Ev where
  | app (s : String)
  | dyn (f : Frag)

/-- Apply one builder call. -/
def stepEv (b : Builder) : Ev → Builder
  | .app s => b.raw s
  | .dyn f => b.extend [f]

/-- Run a call trace from a given builder state. -/
def runFrom (b : Builder) (evs : List Ev) : Builder := evs.foldl stepEv b

/-- Run a call trace from a fresh builder. -/
def runEvs (evs : List Ev) : Builder := runFrom Builder.empty evs

/-- Number of maximal contiguous static runs in a trace, continuing a run
whose accumulated content so far is `acc`: a maximal block of consecutive
appends counts iff its concatenated content is non-empty. -/
def staticRunsAux (acc : String) : List Ev → Nat
  | [] => if acc.isEmpty then 0 else 1
  | .app s :: r => staticRunsAux (acc ++ s) r
  | .dyn _ :: r => (if acc.isEmpty then 0 else 1) + staticRunsAux "" r

/-- Number of maximal contiguous non-empty static runs in a trace. -/
def staticRuns (evs : List Ev) : Nat := staticRunsAux "" evs

/-- Number of write-literal statements at the top level of a token stream. -/
def countWriteLit : List Frag → Nat
  | [] => 0
  | .writeLit _ :: r => countWriteLit r + 1
  | _ :: r => countWriteLit r

theorem countWriteLit_append (xs ys : List Frag) :
    countWriteLit (xs ++ ys) = countWriteLit xs + countWriteLit ys := by
  induction xs with
  | nil => simp [countWriteLit]
  | cons f r ih => cases f <;> simp [countWriteLit, ih] <;> omega

theorem countWriteLit_flushF (buf : String) :
    countWriteLit (flushF buf) = if buf.isEmpty then 0 else 1 := by
  unfold flushF
  by_cases h : buf.isEmpty <;> simp [h, countWriteLit]

theorem countWriteLit_single_not_lit (f : Frag) (h : ∀ s, f ≠ Frag.writeLit s) :
    countWriteLit [f] = 0 := by
  cases f <;> simp [countWriteLit]
  exact absurd rfl (h _)

theorem runFrom_count (evs : List Ev)
    (hd : ∀ s, Ev.dyn (Frag.writeLit s) ∉ evs) : ∀ b : Builder,
    countWriteLit (Builder.finish (runFrom b evs))
      = countWriteLit b.tokens + staticRunsAux b.buffer evs := by
  induction evs with
  | nil =>
    intro b
    rw [finish_tokens, countWriteLit_append, countWriteLit_flushF]
    rfl
  | cons ev r ih =>
    intro b
    have hd' : ∀ s, Ev.dyn (Frag.writeLit s) ∉ r := by
      intro s hs
      exact hd s (List.mem_cons_of_mem _ hs)
    cases ev with
    | app s =>
      show countWriteLit (Builder.finish (runFrom (b.raw s) r)) = _
      rw [ih hd']
      rfl
    | dyn f =>
      show countWriteLit (Builder.finish (runFrom (Builder.extend b [f]) r)) = _
      rw [ih hd', extend_tokens]
      have hf : ∀ s, f ≠ Frag.writeLit s := by
        intro s hs
        exact hd s (by rw [hs]; exact List.mem_cons_self _ _)
      simp only [countWriteLit_append, countWriteLit_flushF,
        countWriteLit_single_not_lit f hf, staticRunsAux]
      simp [staticRunsAux]
      omega

/-! ## Render-time semantics of the generated code

The generated `fmt` body executes the token stream statement by statement:
`write_str(..)?` and `render(..)?` propagate the first write failure via
`?`, `if`/`else if`/`else` chains run the first branch whose test holds,
`for` loops run their body once per iteration.  `REnv` fixes the runtime
meaning of all opaque parts, and which write calls (by index) fail. -/

/-- Runtime environment: truth of opaque tests, the writes an opaque
expression's `Render::render` performs, iteration counts of opaque
iterables, and the result of the n-th sink write (`none` = success,
`some e` = failure with error value `e`). -/
structure REnv where
  test : SynExpr → Bool
  dynOut : Nat → List String
  iterLen : SynExpr → Nat
  writeRes : Nat → Option Nat

/-- Sink state: the writes committed so far, in order. -/
structure SinkSt where
  written : List String

/-- Result of running a piece of generated code: final sink state plus
`none` on success or `some e` when a write failed with error `e`. -/
abbrev RRes := SinkSt × Option Nat

/-- One sink write call (`__writer.write_str(s)`): commits `s` on success,
commits nothing and returns the error on failure. -/
def writeStr (env : REnv) (st : SinkSt) (s : String) : RRes :=
  match env.writeRes st.written.length with
  | none => (⟨st.written ++ [s]⟩, none)
  | some e => (st, some e)

/-- A sequence of sink writes, stopping at the first failure. -/
def writeList (env : REnv) (st : SinkSt) : List String → RRes
  | [] => (st, none)
  | s :: r =>
    match writeStr env st s with
    | (st2, none) => writeList env st2 r
    | (st2, some e) => (st2, some e)

/-- Sequencing with `?`-propagation: on failure the continuation never
runs and the error is returned unchanged. -/
def andThen (r : RRes) (k : SinkSt → RRes) : RRes :=
  match r with
  | (st, none) => k st
  | (st, some e) => (st, some e)

/-- Skip the remaining `else if .. { .. }` / `else { .. }` arms of a chain
whose branch already ran. -/
def skipElses : List Frag → List Frag
  | .elseIfHead _ :: .block _ :: r => skipElses r
  | .elseHead :: .block _ :: r => r
  | l => l

theorem sizeOf_skipElses_le (l : List Frag) : sizeOf (skipElses l) ≤ sizeOf l := by
  induction l using skipElses.induct <;> simp [skipElses] <;> omega

theorem skipElses_elseIf (t : SynExpr) (b r : List Frag) :
    skipElses (.elseIfHead t :: .block b :: r) = skipElses r := rfl

theorem skipElses_els (b r : List Frag) :
    skipElses (.elseHead :: .block b :: r) = r := rfl

mutual
/-- Execute a token stream against the sink.  Statements run left to right;
an `if` head followed by its brace group evaluates its test, running the
group and then skipping the rest of the chain on success, and falling
through to the chain's continuation (`execElse`) on failure; a `for` head
runs its group once per iteration.  (Head tokens not followed by a group
never arise from the generator; they are skipped.) -/
def exec (env : REnv) : List Frag → SinkSt → RRes
  | [], st => (st, none)
  | .writeLit s :: r, st => andThen (writeStr env st s) (fun st2 => exec env r st2)
  | .renderExpr d :: r, st =>
      andThen (writeList env st (env.dynOut d)) (fun st2 => exec env r st2)
  | .block b :: r, st => andThen (exec env b st) (fun st2 => exec env r st2)
  | .ifHead t :: .block b :: r, st =>
      if env.test t then
        andThen (exec env b st) (fun st2 => exec env (skipElses r) st2)
      else execElse env r st
  | .forHead _ e :: .block b :: r, st =>
      andThen (execRepeat env b (env.iterLen e) st) (fun st2 => exec env r st2)
  | .ifHead _ :: r, st => exec env r st
  | .elseIfHead _ :: r, st => exec env r st
  | .elseHead :: r, st => exec env r st
  | .forHead _ _ :: r, st => exec env r st
termination_by l st => (sizeOf l, 0)
decreasing_by
  all_goals simp_wf
  all_goals first
    | (apply Prod.Lex.right; omega)
    | (apply Prod.Lex.left
       first
         | omega
         | (have h := sizeOf_skipElses_le r; omega))

/-- Execute the continuation of an `if` chain whose tests so far all
failed: try the next `else if`, run a final `else`, or fall back to
ordinary statement execution. -/
def execElse (env : REnv) : List Frag → SinkSt → RRes
  | .elseIfHead t :: .block b :: r, st =>
      if env.test t then
        andThen (exec env b st) (fun st2 => exec env (skipElses r) st2)
      else execElse env r st
  | .elseHead :: .block b :: r, st =>
      andThen (exec env b st) (fun st2 => exec env r st2)
  | l, st => exec env l st
termination_by l st => (sizeOf l, 1)
decreasing_by
  all_goals simp_wf
  all_goals first
    | (apply Prod.Lex.right; omega)
    | (apply Prod.Lex.left
       first
         | omega
         | (have h := sizeOf_skipElses_le r; omega))

/-- Execute a loop body `n` times. -/
def execRepeat (env : REnv) (b : List Frag) : Nat → SinkSt → RRes
  | 0, st => (st, none)
  | n+1, st => andThen (exec env b st) (fun st2 => execRepeat env b n st2)
termination_by n st => (sizeOf b, n + 1)
decreasing_by
  all_goals simp_wf
  all_goals (apply Prod.Lex.right; omega)
end

mutual
/-- The writes a token stream performs, in order, ignoring the sink: the
control flow of the generated code does not depend on write results, so
this is the sequence of writes `exec` attempts. -/
def outs (env : REnv) : List Frag → List String
  | [] => []
  | .writeLit s :: r => s :: outs env r
  | .renderExpr d :: r => env.dynOut d ++ outs env r
  | .block b :: r => outs env b ++ outs env r
  | .ifHead t :: .block b :: r =>
      if env.test t then outs env b ++ outs env (skipElses r)
      else outsElse env r
  | .forHead _ e :: .block b :: r =>
      outsRepeat env b (env.iterLen e) ++ outs env r
  | .ifHead _ :: r => outs env r
  | .elseIfHead _ :: r => outs env r
  | .elseHead :: r => outs env r
  | .forHead _ _ :: r => outs env r
termination_by l => (sizeOf l, 0)
decreasing_by
  all_goals simp_wf
  all_goals first
    | (apply Prod.Lex.right; omega)
    | (apply Prod.Lex.left
       first
         | omega
         | (have h := sizeOf_skipElses_le r; omega))

/-- `outs` for the continuation of an `if` chain whose tests so far failed. -/
def outsElse (env : REnv) : List Frag → List String
  | .elseIfHead t :: .block b :: r =>
      if env.test t then outs env b ++ outs env (skipElses r)
      else outsElse env r
  | .elseHead :: .block b :: r => outs env b ++ outs env r
  | l => outs env l
termination_by l => (sizeOf l, 1)
decreasing_by
  all_goals simp_wf
  all_goals first
    | (apply Prod.Lex.right; omega)
    | (apply Prod.Lex.left
       first
         | omega
         | (have h := sizeOf_skipElses_le r; omega))

/-- `outs` of a loop body run `n` times. -/
def outsRepeat (env : REnv) (b : List Frag) : Nat → List String
  | 0 => []
  | n+1 => outs env b ++ outsRepeat env b n
termination_by n => (sizeOf b, n + 1)
decreasing_by
  all_goals simp_wf
  all_goals (apply Prod.Lex.right; omega)
end

theorem writeList_append (env : REnv) (ws : List String) : ∀ (vs : List String)
    (st : SinkSt), writeList env st (ws ++ vs)
      = andThen (writeList env st ws) (fun st2 => writeList env st2 vs) := by
  induction ws with
  | nil => intro vs st; simp [writeList, andThen]
  | cons s r ih =>
    intro vs st
    simp only [List.cons_append, writeList]
    rcases h : writeStr env st s with ⟨st2, e⟩
    cases e with
    | none => simp [ih, andThen]
    | some e => simp [andThen]

/-- Execution factors through the planned write sequence: running the
generated code equals performing its `outs` writes in order against the
sink, stopping at the first failure. -/
theorem exec_factor (env : REnv) : ∀ (l : List Frag) (st : SinkSt),
      exec env l st = writeList env st (outs env l) := by
  apply exec.induct env
    (fun l st => exec env l st = writeList env st (outs env l))
    (fun b n st => execRepeat env b n st = writeList env st (outsRepeat env b n))
    (fun l st => execElse env l st = writeList env st (outsElse env l))
  case case1 => intro st; simp [exec, outs, writeList]
  case case2 =>
    intro s r st ih
    simp only [exec, outs, writeList]
    rcases h : writeStr env st s with ⟨st2, e⟩
    cases e <;> simp [andThen, ih]
  case case3 =>
    intro d r st ih
    simp only [exec, outs]
    rw [writeList_append]
    congr 1
    funext st2
    exact ih st2
  case case4 =>
    intro b r st ih1 ih2
    simp only [exec, outs]
    rw [writeList_append, ih1]
    congr 1
    funext st2
    exact ih2 st2
  case case5 =>
    intro t b r st htest ih1 ih2
    simp only [exec, outs, htest, if_true]
    rw [writeList_append, ih1]
    congr 1
    funext st2
    exact ih2 st2
  case case6 =>
    intro t b r st htest ih
    simp only [exec, outs]
    rw [if_neg htest, if_neg htest]
    exact ih
  case case7 =>
    intro p e b r st ih1 ih2
    simp only [exec, outs]
    rw [writeList_append, ih1]
    congr 1
    funext st2
    exact ih2 st2
  case case8 =>
    intro t r st hnb ih
    rw [exec, outs]
    · exact ih
    · intro b r2 h; exact hnb b r2 h
    · intro b r2 h; exact hnb b r2 h
  case case9 => intro t r st ih; rw [exec, outs]; exact ih
  case case10 => intro r st ih; rw [exec, outs]; exact ih
  case case11 =>
    intro p e r st hnb ih
    rw [exec, outs]
    · exact ih
    · intro b r2 h; exact hnb b r2 h
    · intro b r2 h; exact hnb b r2 h
  case case12 => intro b st; simp [execRepeat, outsRepeat, writeList]
  case case13 =>
    intro b n st ih1 ih2
    simp only [execRepeat, outsRepeat]
    rw [writeList_append, ih1]
    congr 1
    funext st2
    exact ih2 st2
  case case14 =>
    intro t b r st htest ih1 ih2
    simp only [execElse, outsElse, htest, if_true]
    rw [writeList_append, ih1]
    congr 1
    funext st2
    exact ih2 st2
  case case15 =>
    intro t b r st htest ih
    simp only [execElse, outsElse]
    rw [if_neg htest, if_neg htest]
    exact ih
  case case16 =>
    intro b r st ih1 ih2
    simp only [execElse, outsElse]
    rw [writeList_append, ih1]
    congr 1
    funext st2
    exact ih2 st2
  case case17 =>
    intro l st hn1 hn2 ih
    rw [execElse, outsElse]
    · exact ih
    all_goals intros; first
      | (apply hn1 <;> assumption)
      | (apply hn2 <;> assumption)

/-! ## Well-formed token streams

The generator only ever emits complete statements: every `if`/`else if`/
`for` head is immediately followed by its brace group, `else if`/`else`
arms only continue a chain, and nothing after a chain starts with an
else token.  `Wf false` is a well-formed statement sequence, `Wf true` a
well-formed chain continuation. -/

/-- Is this token an `else if` or `else` head? -/
def Frag.isElseTok : Frag → Bool
  | .writeLit _ => false
  | .renderExpr _ => false
  | .ifHead _ => false
  | .elseIfHead _ => true
  | .elseHead => true
  | .forHead _ _ => false
  | .block _ => false

/-- Does this token stream begin with something other than an else arm? -/
def notElse : List Frag → Bool
  | [] => true
  | f :: _ => !f.isElseTok

/-- Well-formedness: `Wf false l` means `l` is a sequence of complete
statements; `Wf true l` means `l` is a chain continuation (zero or more
`else if` arms, an optional final `else` arm, then complete statements). -/
inductive Wf : Bool → List Frag → Prop where
  | nil : Wf false []
  | writeLit (s : String) {r : List Frag} : Wf false r → Wf false (.writeLit s :: r)
  | renderExpr (d : Nat) {r : List Frag} : Wf false r → Wf false (.renderExpr d :: r)
  | blockS {b r : List Frag} : Wf false b → Wf false r → Wf false (.block b :: r)
  | ifChain (t : SynExpr) {b r : List Frag} :
      Wf false b → Wf true r → Wf false (.ifHead t :: .block b :: r)
  | forBlock (p : Nat) (e : SynExpr) {b r : List Frag} :
      Wf false b → Wf false r → Wf false (.forHead p e :: .block b :: r)
  | elseIf (t : SynExpr) {b r : List Frag} :
      Wf false b → Wf true r → Wf true (.elseIfHead t :: .block b :: r)
  | els {b r : List Frag} : Wf false b → Wf false r → Wf true (.elseHead :: .block b :: r)
  | done {r : List Frag} : Wf false r → Wf true r

theorem Wf.notElse_of_stmts {l : List Frag} (h : Wf false l) : notElse l = true := by
  cases h <;> simp [notElse, Frag.isElseTok]

theorem notElse_append {xs ys : List Frag} (hx : notElse xs = true)
    (hy : notElse ys = true) : notElse (xs ++ ys) = true := by
  cases xs with
  | nil => simpa using hy
  | cons f l => simpa [notElse] using hx

theorem skipElses_notElse {l : List Frag} (h : notElse l = true) :
    skipElses l = l := by
  match l with
  | [] => rfl
  | .writeLit _ :: _ => rfl
  | .renderExpr _ :: _ => rfl
  | .ifHead _ :: _ => rfl
  | .forHead _ _ :: _ => rfl
  | .block _ :: _ => rfl
  | .elseIfHead _ :: _ => simp [notElse, Frag.isElseTok] at h
  | .elseHead :: _ => simp [notElse, Frag.isElseTok] at h

theorem execElse_notElse (env : REnv) (l : List Frag) (h : notElse l = true)
    (st : SinkSt) : execElse env l st = exec env l st := by
  match l with
  | [] => rw [execElse] <;> simp
  | .writeLit _ :: _ => rw [execElse] <;> simp
  | .renderExpr _ :: _ => rw [execElse] <;> simp
  | .ifHead _ :: _ => rw [execElse] <;> simp
  | .forHead _ _ :: _ => rw [execElse] <;> simp
  | .block _ :: _ => rw [execElse] <;> simp
  | .elseIfHead _ :: _ => simp [notElse, Frag.isElseTok] at h
  | .elseHead :: _ => simp [notElse, Frag.isElseTok] at h

theorem outsElse_notElse (env : REnv) (l : List Frag) (h : notElse l = true) :
    outsElse env l = outs env l := by
  match l with
  | [] => rw [outsElse] <;> simp
  | .writeLit _ :: _ => rw [outsElse] <;> simp
  | .renderExpr _ :: _ => rw [outsElse] <;> simp
  | .ifHead _ :: _ => rw [outsElse] <;> simp
  | .forHead _ _ :: _ => rw [outsElse] <;> simp
  | .block _ :: _ => rw [outsElse] <;> simp
  | .elseIfHead _ :: _ => simp [notElse, Frag.isElseTok] at h
  | .elseHead :: _ => simp [notElse, Frag.isElseTok] at h

/-- Appending well-formed streams preserves well-formedness. -/
theorem Wf.append {fl : Bool} {xs : List Frag} (h : Wf fl xs) :
    ∀ {ys : List Frag}, Wf false ys → Wf fl (xs ++ ys) := by
  induction h with
  | nil => intro ys hys; exact hys
  | writeLit s _ ih => intro ys hys; exact Wf.writeLit s (ih hys)
  | renderExpr d _ ih => intro ys hys; exact Wf.renderExpr d (ih hys)
  | blockS hb _ ihb ih => intro ys hys; exact Wf.blockS hb (ih hys)
  | ifChain t hb _ ihb ih => intro ys hys; exact Wf.ifChain t hb (ih hys)
  | forBlock p e hb _ ihb ih => intro ys hys; exact Wf.forBlock p e hb (ih hys)
  | elseIf t hb _ ihb ih => intro ys hys; exact Wf.elseIf t hb (ih hys)
  | els hb _ ihb ih => intro ys hys; exact Wf.els hb (ih hys)
  | done _ ih => intro ys hys; exact Wf.done (ih hys)

/-- Appending to a well-formed stream distributes over `outs`/`outsElse`/
`skipElses`: execution of `xs ++ ys` is execution of `xs` followed by
execution of `ys`. -/
theorem outs_append {fl : Bool} {xs : List Frag} (h : Wf fl xs) :
    ∀ {ys : List Frag}, notElse ys = true →
      (fl = false → outs env (xs ++ ys) = outs env xs ++ outs env ys)
      ∧ (fl = true →
          outsElse env (xs ++ ys) = outsElse env xs ++ outs env ys
          ∧ skipElses (xs ++ ys) = skipElses xs ++ ys
          ∧ outs env (skipElses xs ++ ys) = outs env (skipElses xs) ++ outs env ys) := by
  induction h with
  | nil =>
    intro ys hys
    refine ⟨fun _ => by simp [outs], fun hf => by cases hf⟩
  | writeLit s hr ih =>
    intro ys hys
    refine ⟨fun _ => ?_, fun hf => by cases hf⟩
    simp only [List.cons_append, outs]
    rw [((ih hys).1 rfl)]
  | renderExpr d hr ih =>
    intro ys hys
    refine ⟨fun _ => ?_, fun hf => by cases hf⟩
    simp only [List.cons_append, outs]
    rw [((ih hys).1 rfl), List.append_assoc]
  | blockS hb hr ihb ih =>
    intro ys hys
    refine ⟨fun _ => ?_, fun hf => by cases hf⟩
    simp only [List.cons_append, outs]
    rw [((ih hys).1 rfl), List.append_assoc]
  | ifChain t hb hr ihb ih =>
    intro ys hys
    refine ⟨fun _ => ?_, fun hf => by cases hf⟩
    simp only [List.cons_append, outs]
    by_cases htest : env.test t
    · rw [if_pos htest, if_pos htest]
      have h3 := ((ih hys).2 rfl).2
      rw [h3.1, h3.2, List.append_assoc]
    · rw [if_neg htest, if_neg htest]
      exact ((ih hys).2 rfl).1
  | forBlock p e hb hr ihb ih =>
    intro ys hys
    refine ⟨fun _ => ?_, fun hf => by cases hf⟩
    simp only [List.cons_append, outs]
    rw [((ih hys).1 rfl), List.append_assoc]
  | elseIf t hb hr ihb ih =>
    intro ys hys
    refine ⟨fun hf => (nomatch hf), fun _ => ?_⟩
    refine ⟨?_, ?_, ?_⟩
    · simp only [List.cons_append, outsElse]
      by_cases htest : env.test t
      · rw [if_pos htest, if_pos htest]
        have h3 := ((ih hys).2 rfl).2
        rw [h3.1, h3.2, List.append_assoc]
      · rw [if_neg htest, if_neg htest]
        exact ((ih hys).2 rfl).1
    · show skipElses (.elseIfHead t :: .block _ :: _) = _
      rw [skipElses_elseIf, skipElses_elseIf]
      exact ((ih hys).2 rfl).2.1
    · rw [skipElses_elseIf]
      exact ((ih hys).2 rfl).2.2
  | els hb hr ihb ih =>
    intro ys hys
    refine ⟨fun hf => (nomatch hf), fun _ => ?_⟩
    refine ⟨?_, ?_, ?_⟩
    · simp only [List.cons_append, outsElse]
      rw [((ih hys).1 rfl), List.append_assoc]
    · show skipElses (.elseHead :: .block _ :: _) = _
      rw [skipElses_els, skipElses_els]
      rfl
    · rw [skipElses_els]
      exact (ih hys).1 rfl
  | done hr ih =>
    intro ys hys
    have hne := Wf.notElse_of_stmts hr
    refine ⟨fun _ => (ih hys).1 rfl, fun _ => ?_⟩
    have hne2 := notElse_append hne hys
    refine ⟨?_, ?_, ?_⟩
    · rw [outsElse_notElse env _ hne2, outsElse_notElse env _ hne]
      exact (ih hys).1 rfl
    · rw [skipElses_notElse hne2, skipElses_notElse hne]
    · rw [skipElses_notElse hne]
      exact (ih hys).1 rfl

/-- `outs` distributes over appending a well-formed statement sequence to a
well-formed statement sequence. -/
theorem outs_append_stmts (env : REnv) {xs ys : List Frag}
    (hx : Wf false xs) (hy : Wf false ys) :
    outs env (xs ++ ys) = outs env xs ++ outs env ys :=
  (outs_append hx (Wf.notElse_of_stmts hy)).1 rfl

/-! ## Denotational output

`renderNodes` gives the bytes a template produces under an environment,
written directly from the spec's description of each construct.  The
adequacy theorem below connects it to executing the generated token
stream. -/

/-- `n` concatenated copies of a string. -/
def joinN : Nat → String → String
  | 0, _ => ""
  | n+1, s => s ++ joinN n s

/-- Bytes contributed by one expression: a literal folds to its escaped
value, an opaque expression contributes whatever its render writes. -/
def renderE (env : REnv) : SynExpr → String
  | .litStr s => escStr s
  | .other d => joinS (env.dynOut d)

/-- Bytes of an optional id attribute. -/
def renderId (env : REnv) : Option SynExpr → String
  | some i => " id=\"" ++ renderE env i ++ "\""
  | none => ""

/-- Bytes of the class list: classes separated by single spaces. -/
def renderClasses (env : REnv) (first : Bool) : List SynExpr → String
  | [] => ""
  | c :: rest =>
      (if first then "" else " ") ++ renderE env c ++ renderClasses env false rest

/-- Bytes of the attribute list: boolean attributes contribute a space and
their name when their test holds and nothing otherwise; plain attributes
contribute ` name="value"`. -/
def renderAttrs (env : REnv) : List Attribute → String
  | [] => ""
  | ⟨name, value, bool⟩ :: rest =>
      (if bool then (if env.test value then " " ++ escStr name else "")
       else " " ++ escStr name ++ "=\"" ++ renderE env value ++ "\"")
      ++ renderAttrs env rest

mutual
/-- Bytes of a node sequence. -/
def renderNodes (env : REnv) : List Node → String
  | [] => ""
  | n :: r => renderNode env n ++ renderNodes env r

/-- Bytes of one node. -/
def renderNode (env : REnv) : Node → String
  | .element e => renderElement env e
  | .text t => renderText env t
  | .if_ i => renderIf env i
  | .for_ f => renderFor env f

/-- Bytes of a text node. -/
def renderText (env : REnv) : Text → String
  | .string s => escStr s
  | .expr e => renderE env e

/-- Bytes of an element. -/
def renderElement (env : REnv) : Element → String
  | .mk name id classes attributes children close =>
      "<" ++ escStr name
      ++ renderId env id
      ++ (if classes.isEmpty then ""
          else " class=\"" ++ renderClasses env true classes ++ "\"")
      ++ renderAttrs env attributes
      ++ ">"
      ++ renderNodes env children
      ++ (if close then "</" ++ escStr name ++ ">" else "")

/-- Bytes of an if node: first clause whose test holds, else the default,
else nothing. -/
def renderIf (env : REnv) : If → String
  | .mk clauses default =>
      (renderIfClauses env clauses).getD (renderDefault env default)

/-- Bytes of the first clause whose test holds, if any. -/
def renderIfClauses (env : REnv) : List IfClause → Option String
  | [] => none
  | .mk t cons :: rest =>
      if env.test t then some (renderNodes env cons) else renderIfClauses env rest

/-- Bytes of an if node's default when no clause fires. -/
def renderDefault (env : REnv) : Option (List Node) → String
  | some d => renderNodes env d
  | none => ""

/-- Bytes of a for node: the body's bytes once per iteration. -/
def renderFor (env : REnv) : For → String
  | .mk _ e body => joinN (env.iterLen e) (renderNodes env body)
end

/-- The branch an if chain selects: consequent of the first clause whose
test holds, else the default body if present, else none. -/
def pickClause (env : REnv) : List IfClause → Option (List Node) → Option (List Node)
  | [], dflt => dflt
  | .mk t cons :: rest, dflt =>
      if env.test t then some cons else pickClause env rest dflt

theorem renderIf_def (env : REnv) (cs : List IfClause) (dflt : Option (List Node)) :
    renderIf env (If.mk cs dflt)
      = (renderIfClauses env cs).getD (renderDefault env dflt) := rfl

theorem renderIfClauses_cons (env : REnv) (t : SynExpr) (cons : List Node)
    (rest : List IfClause) :
    renderIfClauses env (.mk t cons :: rest)
      = (if env.test t then some (renderNodes env cons)
         else renderIfClauses env rest) := rfl

theorem renderIf_pick (env : REnv) : ∀ (cs : List IfClause)
    (dflt : Option (List Node)),
    renderIf env (If.mk cs dflt)
      = (match pickClause env cs dflt with
         | some body => renderNodes env body
         | none => "") := by
  intro cs
  induction cs with
  | nil => intro dflt; cases dflt <;> rfl
  | cons c rest ih =>
    intro dflt
    rcases c with ⟨t, cons⟩
    rw [renderIf_def, renderIfClauses_cons]
    by_cases h : env.test t
    · rw [if_pos h]
      simp [pickClause, h, Option.getD]
    · rw [if_neg h]
      have hh := ih dflt
      rw [renderIf_def] at hh
      rw [hh]
      simp [pickClause, h]

/-! ## AST well-formedness

The parser never produces an `If` with an empty clause list (spec §3);
`nodesOk` records exactly that, recursively. -/

mutual
/-- Every `If` in the sequence has a non-empty clause list. -/
def nodesOk : List Node → Bool
  | [] => true
  | n :: r => nodeOk n && nodesOk r

/-- Every `If` in the node has a non-empty clause list. -/
def nodeOk : Node → Bool
  | .element (.mk _ _ _ _ children _) => nodesOk children
  | .text _ => true
  | .if_ (.mk clauses dflt) =>
      !clauses.isEmpty && clausesOk clauses && dfltOk dflt
  | .for_ (.mk _ _ body) => nodesOk body

/-- Every `If` under the default body has a non-empty clause list. -/
def dfltOk : Option (List Node) → Bool
  | some d => nodesOk d
  | none => true

/-- Every `If` under any consequent has a non-empty clause list. -/
def clausesOk : List IfClause → Bool
  | [] => true
  | .mk _ cons :: r => nodesOk cons && clausesOk r
end

/-! ## Shape of lowered if chains and for loops -/

/-- The `else if` arms an if node's tail clauses lower to. -/
def elseIfPart : List IfClause → List Frag
  | [] => []
  | .mk t cons :: rest =>
      Frag.elseIfHead t :: Frag.block (built cons) :: elseIfPart rest

/-- The final `else` arm an if node's default lowers to. -/
def defaultPart : Option (List Node) → List Frag
  | none => []
  | some d => [Frag.elseHead, Frag.block (built d)]

/-- The full cascading chain a non-empty if node lowers to: `if test`
wrapping the scoped lowering of the first consequent, `else if` arms in
declaration order, an optional final `else`. -/
def ifChainFrags (c : IfClause) (cs : List IfClause)
    (dflt : Option (List Node)) : List Frag :=
  match c with
  | .mk t cons =>
      Frag.ifHead t :: Frag.block (built cons) :: (elseIfPart cs ++ defaultPart dflt)

theorem genIfClauses_loop (cs : List IfClause) : ∀ b : Builder, b.buffer = "" →
    genIfClauses b false cs = ⟨b.tokens ++ elseIfPart cs, ""⟩ := by
  induction cs with
  | nil =>
    intro b hb
    rcases b with ⟨tk, buf⟩
    simp only [genIfClauses, elseIfPart, List.append_nil]
    simp at hb
    rw [hb]
  | cons c rest ih =>
    intro b hb
    rcases c with ⟨t, cons⟩
    show genIfClauses ((b.extend [Frag.elseIfHead t]).paren _) false rest = _
    rw [ih]
    · rw [extend_tokens]
      simp [Builder.paren, hb, flushF_empty, elseIfPart, Builder.finish,
        extend_tokens, built]
    · rw [extend_tokens]
      simp [Builder.paren]

/-- Lowering a non-empty if node: flush, then exactly the cascading chain;
the buffer is left empty. -/
theorem genIf_shape (b : Builder) (c : IfClause) (cs : List IfClause)
    (dflt : Option (List Node)) :
    genIf b (If.mk (c :: cs) dflt)
      = ⟨b.tokens ++ flushF b.buffer ++ ifChainFrags c cs dflt, ""⟩ := by
  rcases c with ⟨t, cons⟩
  show genIf b (If.mk (IfClause.mk t cons :: cs) dflt) = _
  have h1 : genIfClauses b true (IfClause.mk t cons :: cs)
      = ⟨b.tokens ++ flushF b.buffer
          ++ (Frag.ifHead t :: Frag.block (built cons) :: elseIfPart cs), ""⟩ := by
    show genIfClauses ((b.extend [Frag.ifHead t]).paren _) false cs = _
    rw [genIfClauses_loop]
    · rw [extend_tokens]
      simp [Builder.paren, Builder.finish, built, extend_tokens, flushF_empty]
    · rw [extend_tokens]
      simp [Builder.paren]
  cases dflt with
  | none =>
    show genIfClauses b true _ = _
    rw [h1]
    simp [ifChainFrags, defaultPart]
  | some d =>
    show (((genIfClauses b true _).extend [Frag.elseHead]).paren _) = _
    rw [h1, extend_tokens]
    simp [Builder.paren, Builder.finish, built, extend_tokens, flushF_empty,
      ifChainFrags, defaultPart]

/-- Lowering a for node: flush, then the loop head and the scoped lowering
of the body as one brace group; the buffer is left empty. -/
theorem genFor_shape (b : Builder) (p : Nat) (e : SynExpr) (body : List Node) :
    genFor b (For.mk p e body)
      = ⟨b.tokens ++ flushF b.buffer
          ++ [Frag.forHead p e, Frag.block (built body)], ""⟩ := by
  show ((b.extend [Frag.forHead p e]).paren _) = _
  rw [extend_tokens]
  simp [Builder.paren, Builder.finish, built, extend_tokens, flushF_empty]

/-! ## Semantics of a lowered if chain -/

theorem skipElses_chain_tail (cs : List IfClause) :
    ∀ dflt : Option (List Node),
      skipElses (elseIfPart cs ++ defaultPart dflt) = [] := by
  induction cs with
  | nil =>
    intro dflt
    cases dflt with
    | none => rfl
    | some d => rfl
  | cons c rest ih =>
    intro dflt
    rcases c with ⟨t, cons⟩
    show skipElses (.elseIfHead t :: .block _ :: _) = []
    rw [skipElses_elseIf]
    exact ih dflt

theorem outs_nil (env : REnv) : outs env [] = [] := by rw [outs]

theorem outsElse_chain_tail (env : REnv) (cs : List IfClause) :
    ∀ dflt : Option (List Node),
      outsElse env (elseIfPart cs ++ defaultPart dflt)
        = (match pickClause env cs dflt with
           | some body => outs env (built body)
           | none => []) := by
  induction cs with
  | nil =>
    intro dflt
    cases dflt with
    | none => simp [elseIfPart, defaultPart, pickClause, outsElse, outs]
    | some d =>
      show outsElse env (.elseHead :: .block _ :: []) = _
      rw [outsElse]
      simp [pickClause, outs_nil]
  | cons c rest ih =>
    intro dflt
    rcases c with ⟨t, cons⟩
    show outsElse env (.elseIfHead t :: .block _ :: _) = _
    rw [outsElse]
    try simp only [List.append_eq]
    by_cases h : env.test t
    · rw [if_pos h, skipElses_chain_tail, outs_nil]
      simp [pickClause, h]
    · rw [if_neg h, ih dflt]
      simp [pickClause, h]

/-- Executing a lowered if chain performs exactly the writes of the selected
branch: the first clause whose test holds, else the default, else nothing. -/
theorem outs_chain (env : REnv) (c : IfClause) (cs : List IfClause)
    (dflt : Option (List Node)) :
    outs env (ifChainFrags c cs dflt)
      = (match pickClause env (c :: cs) dflt with
         | some body => outs env (built body)
         | none => []) := by
  rcases c with ⟨t, cons⟩
  show outs env (.ifHead t :: .block _ :: _) = _
  rw [outs]
  try simp only [List.append_eq]
  by_cases h : env.test t
  · rw [if_pos h, skipElses_chain_tail, outs_nil]
    simp [pickClause, h]
  · rw [if_neg h, outsElse_chain_tail]
    simp [pickClause, h]

/-! ## The generator emits well-formed token streams -/

theorem raw_tokens (b : Builder) (s : String) :
    (Builder.raw b s).tokens = b.tokens := rfl

theorem str_tokens (b : Builder) (s : String) :
    (Builder.str b s).tokens = b.tokens := rfl

theorem wf_flushF (buf : String) : Wf false (flushF buf) := by
  unfold flushF
  by_cases h : buf.isEmpty
  · rw [if_pos h]; exact Wf.nil
  · rw [if_neg h]; exact Wf.writeLit buf Wf.nil

theorem wf_extend {b : Builder} {fs : List Frag} (hb : Wf false b.tokens)
    (hfs : Wf false fs) : Wf false (Builder.extend b fs).tokens := by
  rw [extend_tokens]
  exact (hb.append (wf_flushF b.buffer)).append hfs

theorem wf_finish (b : Builder) (hb : Wf false b.tokens) :
    Wf false (Builder.finish b) := by
  rw [finish_tokens]
  exact hb.append (wf_flushF b.buffer)

theorem wf_expr (b : Builder) (hb : Wf false b.tokens) (e : SynExpr) :
    Wf false (Builder.expr b e).tokens := by
  cases e with
  | litStr s => exact hb
  | other d => exact wf_extend hb (Wf.renderExpr d Wf.nil)

theorem wf_ifBlockPair {b inner : Builder} (v : SynExpr) (hb : Wf false b.tokens)
    (hinner : Wf false inner.finish) :
    Wf false (((b.extend [Frag.ifHead v]).paren inner)).tokens := by
  show Wf false ((Builder.extend b [Frag.ifHead v]).tokens ++ [Frag.block inner.finish])
  rw [extend_tokens]
  show Wf false (b.tokens ++ flushF b.buffer ++ [Frag.ifHead v]
    ++ [Frag.block inner.finish])
  rw [List.append_assoc]
  show Wf false (b.tokens ++ flushF b.buffer
    ++ [Frag.ifHead v, Frag.block inner.finish])
  exact (hb.append (wf_flushF b.buffer)).append
    (Wf.ifChain v hinner (Wf.done Wf.nil))

theorem wf_genClasses : ∀ (cs : List SynExpr) (first : Bool) (b : Builder),
    Wf false b.tokens → Wf false (genClasses b first cs).tokens := by
  intro cs
  induction cs with
  | nil => intro first b hb; exact hb
  | cons c rest ih =>
    intro first b hb
    show Wf false (genClasses ((if first then b else b.str " ").expr c) false rest).tokens
    apply ih
    apply wf_expr
    cases first with
    | true => simpa using hb
    | false => simpa [str_tokens] using hb

theorem wf_genAttrs : ∀ (attrs : List Attribute) (b : Builder),
    Wf false b.tokens → Wf false (genAttrs b attrs).tokens := by
  intro attrs
  induction attrs with
  | nil => intro b hb; exact hb
  | cons a rest ih =>
    intro b hb
    rcases a with ⟨name, value, bool⟩
    cases bool with
    | true =>
      show Wf false (genAttrs ((b.extend [Frag.ifHead value]).paren _) rest).tokens
      apply ih
      exact wf_ifBlockPair value hb
        (wf_finish ((Builder.empty.str " ").str name) Wf.nil)
    | false =>
      show Wf false (genAttrs (((((b.str " ").str name).raw "=\"").expr value).raw "\"") rest).tokens
      apply ih
      simp only [raw_tokens]
      apply wf_expr
      simpa only [raw_tokens, str_tokens] using hb

theorem wf_elseTail (dflt : Option (List Node)) : ∀ (cs : List IfClause),
    (∀ t cons, IfClause.mk t cons ∈ cs → Wf false (built cons)) →
    (∀ d, dflt = some d → Wf false (built d)) →
    Wf true (elseIfPart cs ++ defaultPart dflt) := by
  intro cs
  induction cs with
  | nil =>
    intro hcs hd
    cases dflt with
    | none => exact Wf.done Wf.nil
    | some d => exact Wf.els (hd d rfl) Wf.nil
  | cons c rest ih =>
    intro hcs hd
    rcases c with ⟨t, cons⟩
    show Wf true (.elseIfHead t :: .block (built cons) :: (elseIfPart rest ++ defaultPart dflt))
    exact Wf.elseIf t (hcs t cons (List.mem_cons_self _ _))
      (ih (fun t2 c2 h2 => hcs t2 c2 (List.mem_cons_of_mem _ h2)) hd)

theorem wf_chain (c : IfClause) (cs : List IfClause) (dflt : Option (List Node))
    (hc : ∀ t cons, IfClause.mk t cons ∈ c :: cs → Wf false (built cons))
    (hd : ∀ d, dflt = some d → Wf false (built d)) :
    Wf false (ifChainFrags c cs dflt) := by
  rcases c with ⟨t, cons⟩
  show Wf false (.ifHead t :: .block (built cons) :: (elseIfPart cs ++ defaultPart dflt))
  exact Wf.ifChain t (hc t cons (List.mem_cons_self _ _))
    (wf_elseTail dflt cs (fun t2 c2 h2 => hc t2 c2 (List.mem_cons_of_mem _ h2)) hd)

theorem clausesOk_mem : ∀ {cs : List IfClause}, clausesOk cs = true →
    ∀ {t : SynExpr} {cons : List Node}, IfClause.mk t cons ∈ cs → nodesOk cons = true := by
  intro cs
  induction cs with
  | nil => intro _ t cons h; cases h
  | cons c rest ih =>
    intro hok t cons h
    rcases c with ⟨t2, cons2⟩
    have hok2 : nodesOk cons2 = true ∧ clausesOk rest = true := by
      simpa [clausesOk, Bool.and_eq_true] using hok
    rcases List.mem_cons.mp h with h1 | h2
    · cases h1; exact hok2.1
    · exact ih hok2.2 h2

/-- Lowering only ever appends complete statements: starting from a
well-formed token stream, the stream stays well-formed. -/
theorem wf_gen : ∀ (k : Nat) (ns : List Node) (b : Builder), sizeOf ns ≤ k →
    nodesOk ns = true → Wf false b.tokens → Wf false (genNodes b ns).tokens := by
  intro k
  induction k with
  | zero =>
    intro ns b hsz
    rcases ns with _ | ⟨n, r⟩
    · intro _ hb; exact hb
    · intro _ _
      exact absurd hsz (by simp)
  | succ k ih =>
    intro ns b hsz hok hb
    rcases ns with _ | ⟨n, r⟩
    · exact hb
    have hokn : nodeOk n = true ∧ nodesOk r = true := by
      simpa [nodesOk, Bool.and_eq_true] using hok
    show Wf false (genNodes (genNode b n) r).tokens
    have hr : sizeOf r ≤ k := by simp at hsz ⊢; omega
    apply ih r _ hr hokn.2
    rcases n with e | t | i | f
    · -- element
      rcases e with ⟨name, id, classes, attrs, children, close⟩
      have hch : sizeOf children ≤ k := by simp at hsz; omega
      have hchok : nodesOk children = true := by
        simpa [nodeOk] using hokn.1
      have hrec : ∀ b2 : Builder, Wf false b2.tokens →
          Wf false (genNodes b2 children).tokens := fun b2 hb2 =>
        ih children b2 hch hchok hb2
      show Wf false (genElement b (.mk name id classes attrs children close)).tokens
      rw [genElement_def]
      have hid : Wf false (genId ((b.raw "<").str name) id).tokens := by
        cases id with
        | none => exact hb
        | some i => exact wf_expr (((b.raw "<").str name).raw " id=\"") hb i
      have hcls : Wf false ((if classes.isEmpty then genId ((b.raw "<").str name) id
          else (genClasses ((genId ((b.raw "<").str name) id).raw " class=\"")
            true classes).raw "\"")).tokens := by
        by_cases hc : classes.isEmpty
        · rw [if_pos hc]; exact hid
        · rw [if_neg hc]
          show Wf false (genClasses ((genId ((b.raw "<").str name) id).raw " class=\"")
            true classes).tokens
          exact wf_genClasses classes true _ hid
      show Wf false ((if close then _ else _) : Builder).tokens
      cases close with
      | true =>
        rw [if_pos rfl]
        show Wf false (genNodes _ children).tokens
        exact hrec _ (wf_genAttrs attrs _ hcls)
      | false =>
        rw [if_neg Bool.false_ne_true]
        exact hrec _ (wf_genAttrs attrs _ hcls)
    · -- text
      cases t with
      | string s => exact hb
      | expr e => exact wf_expr b hb e
    · -- if
      rcases i with ⟨clauses, dflt⟩
      rcases clauses with _ | ⟨c, cs⟩
      · exact absurd hokn.1 (by simp [nodeOk])
      have h1 : (!(c :: cs).isEmpty && clausesOk (c :: cs)
          && dfltOk dflt) = true := hokn.1
      rw [Bool.and_eq_true, Bool.and_eq_true] at h1
      have hco : clausesOk (c :: cs) = true ∧
          (∀ d, dflt = some d → nodesOk d = true) := by
        refine ⟨h1.1.2, ?_⟩
        intro d hd
        have h2 := h1.2
        rw [hd] at h2
        exact h2
      show Wf false (genIf b (If.mk (c :: cs) dflt)).tokens
      rw [genIf_shape]
      show Wf false (b.tokens ++ flushF b.buffer ++ ifChainFrags c cs dflt)
      refine (hb.append (wf_flushF b.buffer)).append (wf_chain c cs dflt ?_ ?_)
      · intro t cons hm
        apply wf_finish
        apply ih cons Builder.empty _ (clausesOk_mem hco.1 hm) Wf.nil
        have h2 := List.sizeOf_lt_of_mem hm
        simp at h2 hsz
        omega
      · intro d hd
        apply wf_finish
        apply ih d Builder.empty _ (hco.2 d hd) Wf.nil
        subst hd
        simp at hsz
        omega
    · -- for
      rcases f with ⟨p, e, body⟩
      have hbok : nodesOk body = true := by simpa [nodeOk] using hokn.1
      show Wf false (genFor b (For.mk p e body)).tokens
      rw [genFor_shape]
      show Wf false (b.tokens ++ flushF b.buffer
        ++ [Frag.forHead p e, Frag.block (built body)])
      refine (hb.append (wf_flushF b.buffer)).append
        (Wf.forBlock p e ?_ Wf.nil)
      apply wf_finish
      apply ih body Builder.empty _ hbok Wf.nil
      simp at hsz
      omega

/-- Well-formedness of the full lowering of a template body. -/
theorem wf_built {ns : List Node} (hok : nodesOk ns = true) :
    Wf false (built ns) :=
  wf_finish _ (wf_gen (sizeOf ns) ns Builder.empty le_rfl hok Wf.nil)

/-! ## Bytes produced by a builder state -/

theorem joinS_append (xs : List String) : ∀ ys : List String,
    joinS (xs ++ ys) = joinS xs ++ joinS ys := by
  induction xs with
  | nil => intro ys; simp [joinS, String.empty_append]
  | cons s r ih =>
    intro ys
    show s ++ joinS (r ++ ys) = s ++ joinS r ++ joinS ys
    rw [ih, String.append_assoc]

theorem outs_writeLit_cons (env : REnv) (s : String) (r : List Frag) :
    outs env (.writeLit s :: r) = s :: outs env r := by rw [outs]

theorem outs_renderExpr_cons (env : REnv) (d : Nat) (r : List Frag) :
    outs env (.renderExpr d :: r) = env.dynOut d ++ outs env r := by rw [outs]

theorem outsElse_nil (env : REnv) : outsElse env [] = [] := by
  rw [outsElse_notElse env [] rfl, outs_nil]

theorem outs_ifPair (env : REnv) (v : SynExpr) (body : List Frag) :
    outs env [.ifHead v, .block body]
      = (if env.test v then outs env body else []) := by
  rw [outs]
  by_cases h : env.test v
  · rw [if_pos h, if_pos h]
    show outs env body ++ outs env [] = _
    rw [outs_nil, List.append_nil]
  · rw [if_neg h, if_neg h, outsElse_nil]

theorem outs_forPair (env : REnv) (p : Nat) (e : SynExpr) (body : List Frag) :
    outs env [.forHead p e, .block body]
      = outsRepeat env body (env.iterLen e) := by
  rw [outs, outs_nil, List.append_nil]

theorem joinS_flushF_outs (env : REnv) (buf : String) :
    joinS (outs env (flushF buf)) = buf := by
  unfold flushF
  by_cases h : buf.isEmpty
  · rw [if_pos h, outs_nil]
    exact ((String.isEmpty_iff buf).mp h).symm
  · rw [if_neg h, outs_writeLit_cons, outs_nil]
    show buf ++ "" = buf
    exact String.append_empty buf

/-- The bytes the finished contents of a builder state produce when
executed. -/
def den (env : REnv) (b : Builder) : String :=
  joinS (outs env (Builder.finish b))

theorem den_eq (env : REnv) (b : Builder) (hb : Wf false b.tokens) :
    den env b = joinS (outs env b.tokens) ++ b.buffer := by
  unfold den
  rw [finish_tokens, outs_append_stmts env hb (wf_flushF b.buffer),
    joinS_append, joinS_flushF_outs]

theorem raw_buffer (b : Builder) (s : String) :
    (Builder.raw b s).buffer = b.buffer ++ s := rfl

theorem den_empty (env : REnv) : den env Builder.empty = "" := by
  unfold den
  rw [show Builder.finish Builder.empty = [] from rfl, outs_nil]
  rfl

theorem den_raw (env : REnv) (b : Builder) (s : String) (hb : Wf false b.tokens) :
    den env (b.raw s) = den env b ++ s := by
  rw [den_eq env (b.raw s) hb, den_eq env b hb, raw_tokens, raw_buffer,
    String.append_assoc]

theorem den_str (env : REnv) (b : Builder) (s : String) (hb : Wf false b.tokens) :
    den env (b.str s) = den env b ++ escStr s := by
  rw [str_eq_raw, den_raw env b (escStr s) hb]

/-- Appending a flush plus a well-formed statement chunk to a builder:
the bytes are the builder's bytes followed by the chunk's. -/
theorem den_addStmts (env : REnv) (b : Builder) (chunk : List Frag)
    (hb : Wf false b.tokens) (hc : Wf false chunk) :
    den env (Builder.mk (b.tokens ++ flushF b.buffer ++ chunk) "")
      = den env b ++ joinS (outs env chunk) := by
  rw [den_eq env _ ((hb.append (wf_flushF b.buffer)).append hc),
    den_eq env b hb]
  show joinS (outs env (b.tokens ++ flushF b.buffer ++ chunk)) ++ ""
    = joinS (outs env b.tokens) ++ b.buffer ++ joinS (outs env chunk)
  rw [String.append_empty,
    outs_append_stmts env (hb.append (wf_flushF b.buffer)) hc,
    outs_append_stmts env hb (wf_flushF b.buffer),
    joinS_append, joinS_append, joinS_flushF_outs]

/-- A generic `extend`-then-`paren` pair. -/
theorem extend_paren_shape (b : Builder) (f : Frag) (inner : Builder) :
    (b.extend [f]).paren inner
      = ⟨b.tokens ++ flushF b.buffer ++ [f, Frag.block inner.finish], ""⟩ := by
  rw [extend_tokens]
  simp [Builder.paren]

theorem den_expr (env : REnv) (b : Builder) (e : SynExpr) (hb : Wf false b.tokens) :
    den env (b.expr e) = den env b ++ renderE env e := by
  cases e with
  | litStr s => exact den_str env b s hb
  | other d =>
    show den env (b.extend [Frag.renderExpr d]) = _
    rw [extend_tokens]
    rw [den_addStmts env b [Frag.renderExpr d] hb (Wf.renderExpr d Wf.nil)]
    rw [outs_renderExpr_cons, outs_nil, List.append_nil]
    rfl

theorem joinS_outsRepeat (env : REnv) (body : List Frag) : ∀ n : Nat,
    joinS (outsRepeat env body n) = joinN n (joinS (outs env body)) := by
  intro n
  induction n with
  | zero => rw [outsRepeat]; rfl
  | succ n ih =>
    rw [outsRepeat, joinS_append, ih]
    rfl

theorem escStr_space : escStr " " = " " := rfl

theorem den_genClasses (env : REnv) : ∀ (cs : List SynExpr) (first : Bool)
    (b : Builder), Wf false b.tokens →
    den env (genClasses b first cs) = den env b ++ renderClasses env first cs := by
  intro cs
  induction cs with
  | nil =>
    intro first b hb
    show den env b = den env b ++ ""
    rw [String.append_empty]
  | cons c rest ih =>
    intro first b hb
    show den env (genClasses ((if first then b else b.str " ").expr c) false rest) = _
    have hwe : Wf false ((if first then b else b.str " ") : Builder).tokens := by
      cases first with
      | true => simpa using hb
      | false => simpa [str_tokens] using hb
    rw [ih false _ (wf_expr _ hwe c)]
    rw [den_expr env _ c hwe]
    have hite : den env ((if first then b else b.str " ") : Builder)
        = den env b ++ (if first then "" else " ") := by
      cases first with
      | true =>
        show den env b = den env b ++ ""
        rw [String.append_empty]
      | false =>
        show den env (b.str " ") = den env b ++ " "
        rw [den_str env b " " hb, escStr_space]
    rw [hite]
    show _ = den env b ++ ((if first then "" else " ") ++ renderE env c
      ++ renderClasses env false rest)
    simp [String.append_assoc]

theorem den_genAttrs (env : REnv) : ∀ (attrs : List Attribute) (b : Builder),
    Wf false b.tokens →
    den env (genAttrs b attrs) = den env b ++ renderAttrs env attrs := by
  intro attrs
  induction attrs with
  | nil =>
    intro b hb
    show den env b = den env b ++ ""
    rw [String.append_empty]
  | cons a rest ih =>
    intro b hb
    rcases a with ⟨name, value, bool⟩
    cases bool with
    | true =>
      show den env (genAttrs ((b.extend [Frag.ifHead value]).paren
        ((Builder.empty.str " ").str name)) rest) = _
      rw [extend_paren_shape]
      have hinner : Wf false (Builder.finish ((Builder.empty.str " ").str name)) :=
        wf_finish _ Wf.nil
      have hchunk : Wf false [Frag.ifHead value,
          Frag.block (Builder.finish ((Builder.empty.str " ").str name))] :=
        Wf.ifChain value hinner (Wf.done Wf.nil)
      rw [ih _ ((hb.append (wf_flushF b.buffer)).append hchunk)]
      rw [den_addStmts env b _ hb hchunk]
      rw [outs_ifPair]
      have hbody : joinS (outs env (Builder.finish ((Builder.empty.str " ").str name)))
          = " " ++ escStr name := by
        show den env ((Builder.empty.str " ").str name) = _
        rw [den_str env _ name (show Wf false (Builder.empty.str " ").tokens from Wf.nil),
          den_str env Builder.empty " " Wf.nil, den_empty, escStr_space]
        rw [String.empty_append]
      show den env b ++ joinS (if env.test value
          then outs env (Builder.finish ((Builder.empty.str " ").str name))
          else []) ++ renderAttrs env rest
        = den env b
          ++ ((if env.test value then " " ++ escStr name else "")
              ++ renderAttrs env rest)
      by_cases h : env.test value
      · rw [if_pos h, if_pos h, hbody]
        simp [String.append_assoc]
      · rw [if_neg h, if_neg h]
        show den env b ++ "" ++ renderAttrs env rest = _
        rw [String.append_empty, String.empty_append]
    | false =>
      show den env (genAttrs (((((b.str " ").str name).raw "=\"").expr value).raw "\"")
        rest) = _
      have h1 : Wf false (b.str " ").tokens := by simpa [str_tokens] using hb
      have h2 : Wf false ((b.str " ").str name).tokens := by
        simpa [str_tokens] using hb
      have h3 : Wf false (((b.str " ").str name).raw "=\"").tokens := by
        simpa [raw_tokens, str_tokens] using hb
      have h4 : Wf false ((((b.str " ").str name).raw "=\"").expr value).tokens :=
        wf_expr _ h3 value
      have h5 : Wf false (((((b.str " ").str name).raw "=\"").expr value).raw "\"").tokens := by
        simpa [raw_tokens] using h4
      rw [ih _ h5]
      rw [den_raw env _ "\"" h4, den_expr env _ value h3,
        den_raw env _ "=\"" h2, den_str env _ name h1, den_str env b " " hb,
        escStr_space]
      show _ = den env b
        ++ ((" " ++ escStr name ++ "=\"" ++ renderE env value ++ "\"")
            ++ renderAttrs env rest)
      simp [String.append_assoc]

/-! ## Adequacy: executing the lowered stream produces the denotational
bytes -/

theorem pickClause_mem (env : REnv) : ∀ (cs : List IfClause)
    (dflt : Option (List Node)) (body : List Node),
    pickClause env cs dflt = some body →
    (∃ t, IfClause.mk t body ∈ cs) ∨ dflt = some body := by
  intro cs
  induction cs with
  | nil =>
    intro dflt body h
    exact Or.inr h
  | cons c rest ih =>
    intro dflt body h
    rcases c with ⟨t, cons⟩
    rw [pickClause] at h
    by_cases htest : env.test t
    · rw [if_pos htest] at h
      exact Or.inl ⟨t, by rw [Option.some_inj.mp h]; exact List.mem_cons_self _ _⟩
    · rw [if_neg htest] at h
      rcases ih dflt body h with ⟨t2, hm⟩ | hd
      · exact Or.inl ⟨t2, List.mem_cons_of_mem _ hm⟩
      · exact Or.inr hd

/-- Adequacy of lowering: the bytes the generated token stream writes are
the builder's pending bytes followed by the denotational rendering of the
template. -/
theorem adeq_gen (env : REnv) : ∀ (k : Nat) (ns : List Node) (b : Builder),
    sizeOf ns ≤ k → nodesOk ns = true → Wf false b.tokens →
    den env (genNodes b ns) = den env b ++ renderNodes env ns := by
  intro k
  induction k with
  | zero =>
    intro ns b hsz
    rcases ns with _ | ⟨n, r⟩
    · intro _ hb
      show den env b = den env b ++ ""
      rw [String.append_empty]
    · intro _ _
      exact absurd hsz (by simp)
  | succ k ih =>
    intro ns b hsz hok hb
    rcases ns with _ | ⟨n, r⟩
    · show den env b = den env b ++ ""
      rw [String.append_empty]
    have hokn : nodeOk n = true ∧ nodesOk r = true := by
      simpa [nodesOk, Bool.and_eq_true] using hok
    have hr : sizeOf r ≤ k := by simp at hsz; omega
    have hWn : Wf false (genNode b n).tokens :=
      wf_gen (sizeOf [n]) [n] b le_rfl (by simp [nodesOk, hokn.1]) hb
    show den env (genNodes (genNode b n) r) = _
    rw [ih r (genNode b n) hr hokn.2 hWn]
    have hnode : den env (genNode b n) = den env b ++ renderNode env n := by
      rcases n with e | t | i | f
      · -- element
        rcases e with ⟨name, id, classes, attrs, children, close⟩
        have hch : sizeOf children ≤ k := by simp at hsz; omega
        have hchok : nodesOk children = true := by
          simpa [nodeOk] using hokn.1
        have hrec : ∀ b2 : Builder, Wf false b2.tokens →
            den env (genNodes b2 children) = den env b2 ++ renderNodes env children :=
          fun b2 hb2 => ih children b2 hch hchok hb2
        have hid : Wf false (genId ((b.raw "<").str name) id).tokens := by
          cases id with
          | none => exact hb
          | some i => exact wf_expr (((b.raw "<").str name).raw " id=\"") hb i
        have hden1 : den env (genId ((b.raw "<").str name) id)
            = den env b ++ "<" ++ escStr name ++ renderId env id := by
          cases id with
          | none =>
            show den env ((b.raw "<").str name) = _ ++ ""
            rw [String.append_empty, den_str env (b.raw "<") name hb,
              den_raw env b "<" hb]
          | some i =>
            show den env ((((((b.raw "<").str name)).raw " id=\"").expr i).raw "\"") = _
            rw [den_raw env _ "\"" (wf_expr (((b.raw "<").str name).raw " id=\"") hb i),
              den_expr env (((b.raw "<").str name).raw " id=\"") i hb,
              den_raw env ((b.raw "<").str name) " id=\"" hb,
              den_str env (b.raw "<") name hb, den_raw env b "<" hb]
            show _ = _ ++ (" id=\"" ++ renderE env i ++ "\"")
            simp [String.append_assoc]
        have hcls : Wf false ((if classes.isEmpty then genId ((b.raw "<").str name) id
            else (genClasses ((genId ((b.raw "<").str name) id).raw " class=\"")
              true classes).raw "\"")).tokens := by
          by_cases hc : classes.isEmpty
          · rw [if_pos hc]; exact hid
          · rw [if_neg hc]
            show Wf false (genClasses ((genId ((b.raw "<").str name) id).raw " class=\"")
              true classes).tokens
            exact wf_genClasses classes true _ hid
        have hden2 : den env ((if classes.isEmpty then genId ((b.raw "<").str name) id
            else (genClasses ((genId ((b.raw "<").str name) id).raw " class=\"")
              true classes).raw "\""))
            = den env b ++ "<" ++ escStr name ++ renderId env id
              ++ (if classes.isEmpty then ""
                  else " class=\"" ++ renderClasses env true classes ++ "\"") := by
          by_cases hc : classes.isEmpty
          · rw [if_pos hc, if_pos hc, hden1, String.append_empty]
          · rw [if_neg hc, if_neg hc]
            show den env ((genClasses ((genId ((b.raw "<").str name) id).raw " class=\"")
              true classes).raw "\"") = _
            rw [den_raw env _ "\""
                (wf_genClasses classes true
                  ((genId ((b.raw "<").str name) id).raw " class=\"") hid),
              den_genClasses env classes true
                ((genId ((b.raw "<").str name) id).raw " class=\"") hid,
              den_raw env _ " class=\"" hid, hden1]
            simp [String.append_assoc]
        have hattrs : Wf false (genAttrs (if classes.isEmpty
            then genId ((b.raw "<").str name) id
            else (genClasses ((genId ((b.raw "<").str name) id).raw " class=\"")
              true classes).raw "\"") attrs).tokens :=
          wf_genAttrs attrs _ hcls
        have hden3 : den env (genNodes ((genAttrs (if classes.isEmpty
            then genId ((b.raw "<").str name) id
            else (genClasses ((genId ((b.raw "<").str name) id).raw " class=\"")
              true classes).raw "\"") attrs).raw ">") children)
            = den env b ++ "<" ++ escStr name ++ renderId env id
              ++ (if classes.isEmpty then ""
                  else " class=\"" ++ renderClasses env true classes ++ "\"")
              ++ renderAttrs env attrs ++ ">" ++ renderNodes env children := by
          rw [hrec _ (show Wf false ((genAttrs _ attrs).raw ">").tokens by
              simpa [raw_tokens] using hattrs),
            den_raw env _ ">" hattrs, den_genAttrs env attrs _ hcls, hden2]
        show den env (genElement b (.mk name id classes attrs children close)) = _
        rw [genElement_def]
        cases close with
        | true =>
          show den env ((((genNodes ((genAttrs _ attrs).raw ">") children).raw
            "</").str name).raw ">") = _
          have hW3 : Wf false (genNodes ((genAttrs (if classes.isEmpty
              then genId ((b.raw "<").str name) id
              else (genClasses ((genId ((b.raw "<").str name) id).raw " class=\"")
                true classes).raw "\"") attrs).raw ">") children).tokens :=
            wf_gen (sizeOf children) children _ le_rfl hchok
              (by simpa [raw_tokens] using hattrs)
          rw [den_raw env _ ">" (by simpa [raw_tokens, str_tokens] using hW3),
            den_str env _ name (by simpa [raw_tokens] using hW3),
            den_raw env _ "</" hW3, hden3]
          show _ = _ ++ ("<" ++ escStr name ++ renderId env id
            ++ (if classes.isEmpty then ""
                else " class=\"" ++ renderClasses env true classes ++ "\"")
            ++ renderAttrs env attrs ++ ">" ++ renderNodes env children
            ++ ("</" ++ escStr name ++ ">"))
          simp [String.append_assoc]
        | false =>
          show den env (genNodes ((genAttrs _ attrs).raw ">") children) = _
          rw [hden3]
          show _ = _ ++ ("<" ++ escStr name ++ renderId env id
            ++ (if classes.isEmpty then ""
                else " class=\"" ++ renderClasses env true classes ++ "\"")
            ++ renderAttrs env attrs ++ ">" ++ renderNodes env children ++ "")
          simp [String.append_assoc]
      · -- text
        cases t with
        | string s =>
          show den env (b.str s) = _ ++ escStr s
          exact den_str env b s hb
        | expr e =>
          show den env (b.expr e) = _ ++ renderE env e
          exact den_expr env b e hb
      · -- if
        rcases i with ⟨clauses, dflt⟩
        rcases clauses with _ | ⟨c, cs⟩
        · exact absurd hokn.1 (by simp [nodeOk])
        have h1 : (!(c :: cs).isEmpty && clausesOk (c :: cs)
            && dfltOk dflt) = true := hokn.1
        rw [Bool.and_eq_true, Bool.and_eq_true] at h1
        have hdOk : ∀ d, dflt = some d → nodesOk d = true := by
          intro d hd
          have h2 := h1.2
          rw [hd] at h2
          exact h2
        have hbodyWf : ∀ t cons, IfClause.mk t cons ∈ c :: cs →
            Wf false (built cons) := by
          intro t cons hm
          apply wf_finish
          apply wf_gen (sizeOf cons) cons Builder.empty le_rfl
            (clausesOk_mem h1.1.2 hm) Wf.nil
        have hdWf : ∀ d, dflt = some d → Wf false (built d) := by
          intro d hd
          apply wf_finish
          apply wf_gen (sizeOf d) d Builder.empty le_rfl (hdOk d hd) Wf.nil
        have hChain : Wf false (ifChainFrags c cs dflt) :=
          wf_chain c cs dflt hbodyWf hdWf
        show den env (genIf b (If.mk (c :: cs) dflt)) = _
        rw [genIf_shape, den_addStmts env b _ hb hChain, outs_chain]
        rw [show renderNode env (.if_ (If.mk (c :: cs) dflt))
          = renderIf env (If.mk (c :: cs) dflt) from rfl]
        rw [renderIf_pick]
        rcases hpick : pickClause env (c :: cs) dflt with _ | body
        · rw [show joinS ([] : List String) = "" from rfl]
        · have hbnd : sizeOf body ≤ k := by
            rcases pickClause_mem env (c :: cs) dflt body hpick with ⟨t, hm⟩ | hd
            · have h2 := List.sizeOf_lt_of_mem hm
              simp at h2 hsz
              omega
            · subst hd
              simp at hsz
              omega
          have hbok : nodesOk body = true := by
            rcases pickClause_mem env (c :: cs) dflt body hpick with ⟨t, hm⟩ | hd
            · exact clausesOk_mem h1.1.2 hm
            · exact hdOk body hd
          have hjb : joinS (outs env (built body)) = renderNodes env body := by
            show den env (genNodes Builder.empty body) = _
            rw [ih body Builder.empty hbnd hbok Wf.nil, den_empty,
              String.empty_append]
          rw [hjb]
      · -- for
        rcases f with ⟨p, e, body⟩
        have hbok : nodesOk body = true := by simpa [nodeOk] using hokn.1
        have hbnd : sizeOf body ≤ k := by simp at hsz; omega
        have hbWf : Wf false (built body) :=
          wf_finish _ (wf_gen (sizeOf body) body Builder.empty le_rfl hbok Wf.nil)
        have hchunk : Wf false [Frag.forHead p e, Frag.block (built body)] :=
          Wf.forBlock p e hbWf Wf.nil
        show den env (genFor b (For.mk p e body)) = _
        rw [genFor_shape, den_addStmts env b _ hb hchunk, outs_forPair,
          joinS_outsRepeat]
        have hjb : joinS (outs env (built body)) = renderNodes env body := by
          show den env (genNodes Builder.empty body) = _
          rw [ih body Builder.empty hbnd hbok Wf.nil, den_empty,
            String.empty_append]
        rw [hjb]
        rfl
    rw [hnode, String.append_assoc]
    rfl

/-- Adequacy at the top level: the bytes of a full render. -/
theorem adeq_built (env : REnv) (ns : List Node) (hok : nodesOk ns = true) :
    joinS (outs env (built ns)) = renderNodes env ns := by
  show den env (genNodes Builder.empty ns) = _
  rw [adeq_gen env (sizeOf ns) ns Builder.empty le_rfl hok Wf.nil, den_empty,
    String.empty_append]

/-! ## The success path -/

/-- Every sink write succeeds. -/
def allOk (env : REnv) : Prop := ∀ n, env.writeRes n = none

theorem writeStr_allOk (env : REnv) (h : allOk env) (st : SinkSt) (s : String) :
    writeStr env st s = (⟨st.written ++ [s]⟩, none) := by
  unfold writeStr
  rw [h st.written.length]

theorem writeList_allOk (env : REnv) (h : allOk env) : ∀ (ws : List String)
    (st : SinkSt), writeList env st ws = (⟨st.written ++ ws⟩, none) := by
  intro ws
  induction ws with
  | nil => intro st; simp [writeList]
  | cons s r ih =>
    intro st
    show (match writeStr env st s with
      | (st2, none) => writeList env st2 r
      | (st2, some e) => (st2, some e)) = _
    rw [writeStr_allOk env h]
    show writeList env ⟨st.written ++ [s]⟩ r = _
    rw [ih]
    simp

/-- Under an all-success sink, execution simply appends the planned writes
and succeeds. -/
theorem exec_allOk (env : REnv) (h : allOk env) (l : List Frag) (st : SinkSt) :
    exec env l st = (⟨st.written ++ outs env l⟩, none) := by
  rw [exec_factor, writeList_allOk env h]

/-- The generated `fmt` body produced by `<Struct as ToTokens>::to_tokens`:
run the lowered operation sequence against the sink (each operation using
`?`), then return `Ok(())`. -/
def render (env : REnv) (ns : List Node) (st : SinkSt) : RRes :=
  exec env (built ns) st

theorem nodesOk_append : ∀ xs ys : List Node,
    nodesOk (xs ++ ys) = (nodesOk xs && nodesOk ys) := by
  intro xs
  induction xs with
  | nil => intro ys; simp [nodesOk]
  | cons n r ih =>
    intro ys
    show (nodeOk n && nodesOk (r ++ ys)) = _
    rw [ih]
    show _ = ((nodeOk n && nodesOk r) && nodesOk ys)
    rw [Bool.and_assoc]

theorem renderNodes_append (env : REnv) : ∀ xs ys : List Node,
    renderNodes env (xs ++ ys) = renderNodes env xs ++ renderNodes env ys := by
  intro xs
  induction xs with
  | nil =>
    intro ys
    show renderNodes env ys = "" ++ renderNodes env ys
    rw [String.empty_append]
  | cons n r ih =>
    intro ys
    show renderNode env n ++ renderNodes env (r ++ ys) = _
    rw [ih]
    show _ = (renderNode env n ++ renderNodes env r) ++ renderNodes env ys
    rw [String.append_assoc]

/-! ## The claims -/

/-- C1: `Builder::str` (the escaping operation) processes its input
character by character in order, replacing each occurrence of the four
reserved characters by its entity exactly once and leaving every other
character unchanged: the resulting buffer is the old buffer followed by
the concatenation of the per-character escapes, and the per-character map
sends `&`, `<`, `>`, `"` to `&amp;`, `&lt;`, `&gt;`, `&quot;` and any
other character to itself. -/
theorem str_escapes_each_char (b : Builder) (s : String) :
    (Builder.str b s).buffer = b.buffer ++ joinS (s.data.map escC)
    ∧ (∀ c : Char, escC c =
        if c = '&' then "&amp;"
        else if c = '<' then "&lt;"
        else if c = '>' then "&gt;"
        else if c = '"' then "&quot;"
        else String.singleton c) := by
  constructor
  · rw [str_buffer]; rfl
  · intro c
    unfold escC
    split
    · simp
    · simp
    · simp
    · simp
    · rename_i h1 h2 h3 h4
      rw [if_neg (by simpa using h1), if_neg (by simpa using h2),
        if_neg (by simpa using h3), if_neg (by simpa using h4)]

/-- C2: a dynamic emission flushes the entire pending buffer as exactly
one write-literal token run and never splits it (`Builder::extend`'s
result is the old tokens, one `writeLit` holding the whole buffer when it
is non-empty and nothing when it is empty, then the new tokens); over any
builder call trace whose dynamic emissions are not themselves
write-literals, the number of write-literal operations in the finished
sequence equals the number of maximal contiguous non-empty static runs. -/
theorem flush_whole_write_count (evs : List Ev)
    (hd : ∀ s, Ev.dyn (Frag.writeLit s) ∉ evs) :
    countWriteLit (Builder.finish (runEvs evs)) = staticRuns evs
    ∧ ∀ (b : Builder) (fs : List Frag),
        Builder.extend b fs
          = ⟨b.tokens
              ++ (if b.buffer.isEmpty then [] else [Frag.writeLit b.buffer])
              ++ fs, ""⟩ := by
  constructor
  · have h := runFrom_count evs hd Builder.empty
    rw [show runEvs evs = runFrom Builder.empty evs from rfl, h]
    show 0 + staticRunsAux "" evs = staticRunsAux "" evs
    exact Nat.zero_add _
  · intro b fs
    rw [extend_tokens]
    rfl

/-- A sample builder call trace: two non-empty static runs separated by
dynamic emissions, with an empty append in between. -/
def c2evs : List Ev :=
  [Ev.app "a", Ev.dyn (Frag.renderExpr 0), Ev.app "",
   Ev.dyn (Frag.ifHead (SynExpr.other 1)), Ev.app "b", Ev.app "c"]

theorem flush_whole_write_count_witness :
    (∀ s, Ev.dyn (Frag.writeLit s) ∉ c2evs)
    ∧ countWriteLit (Builder.finish (runEvs c2evs)) = staticRuns c2evs
    ∧ staticRuns c2evs = 2 := by
  have h : ∀ s, Ev.dyn (Frag.writeLit s) ∉ c2evs := by
    intro s hs
    simp [c2evs] at hs
  exact ⟨h, (flush_whole_write_count c2evs h).1, by decide⟩

/-- C3: `Builder::expr` on a syntactic string literal escapes its value
into the pending buffer, emitting nothing (tokens unchanged, no flush);
on every other expression it flushes the pending buffer and emits exactly
one dynamic render-expression-into-sink operation. -/
theorem expr_literal_folding (b : Builder) :
    (∀ s, (Builder.expr b (SynExpr.litStr s)).tokens = b.tokens
        ∧ (Builder.expr b (SynExpr.litStr s)).buffer = b.buffer ++ escStr s)
    ∧ (∀ d, Builder.expr b (SynExpr.other d)
        = ⟨b.tokens ++ flushF b.buffer ++ [Frag.renderExpr d], ""⟩) := by
  constructor
  · intro s
    refine ⟨rfl, ?_⟩
    rw [show Builder.expr b (.litStr s) = b.str s from rfl, str_buffer]
  · intro d
    show Builder.extend b [Frag.renderExpr d] = _
    exact extend_tokens b _

/-- C4: a non-empty `If` node lowers to a single cascading chain — `if
test` wrapping the scoped lowering of the first consequent, `else if`
arms in declaration order, a final `else` for the default if present
(`ifChainFrags`) — and at render time the chain executes exactly the
branch of the first clause whose test is true, else the default if
present, else nothing. -/
theorem if_chain_lowering (b : Builder) (c : IfClause) (cs : List IfClause)
    (dflt : Option (List Node)) (env : REnv) (st : SinkSt) :
    genNode b (Node.if_ (If.mk (c :: cs) dflt))
      = ⟨b.tokens ++ flushF b.buffer ++ ifChainFrags c cs dflt, ""⟩
    ∧ exec env (ifChainFrags c cs dflt) st
      = (match pickClause env (c :: cs) dflt with
         | some body => exec env (built body) st
         | none => (st, none)) := by
  constructor
  · exact genIf_shape b c cs dflt
  · rw [exec_factor, outs_chain]
    rcases hp : pickClause env (c :: cs) dflt with _ | body
    · rfl
    · show writeList env st (outs env (built body)) = exec env (built body) st
      rw [exec_factor]

/-- C5: a boolean attribute lowers to a conditional block guarded by its
value whose body writes exactly one string: a single leading space
followed by the (escaped) attribute name — no `=`, no trailing text.
When the guard is false at render time the block contributes nothing to
the sink; when it is true it performs exactly that one write. -/
theorem bool_attribute_lowering (b : Builder) (n : String) (v : SynExpr)
    (env : REnv) (st : SinkSt) :
    genAttrs b [⟨n, v, true⟩]
      = ⟨b.tokens ++ flushF b.buffer
          ++ [Frag.ifHead v, Frag.block [Frag.writeLit (" " ++ escStr n)]], ""⟩
    ∧ (env.test v = false →
        exec env [Frag.ifHead v, Frag.block [Frag.writeLit (" " ++ escStr n)]] st
          = (st, none))
    ∧ (env.test v = true →
        exec env [Frag.ifHead v, Frag.block [Frag.writeLit (" " ++ escStr n)]] st
          = writeStr env st (" " ++ escStr n))
    ∧ " " ++ escStr "checked" = " checked" := by
  have hinner : Builder.finish ((Builder.empty.str " ").str n)
      = [Frag.writeLit (" " ++ escStr n)] := by
    have hbuf : ((Builder.empty.str " ").str n).buffer = " " ++ escStr n := by
      rw [str_buffer, str_buffer]
      show "" ++ escStr " " ++ escStr n = _
      rw [escStr_space, String.empty_append]
    have hne : (" " ++ escStr n).isEmpty = false := by
      rcases hie : (" " ++ escStr n).isEmpty with _ | _
      · rfl
      · exfalso
        have h2 := (String.isEmpty_iff _).mp hie
        have h3 := congrArg String.data h2
        simp [String.data_append] at h3
    rw [finish_tokens, hbuf]
    show flushF (" " ++ escStr n) = _
    unfold flushF
    rw [hne]
    rfl
  refine ⟨?_, ?_, ?_, rfl⟩
  · show (b.extend [Frag.ifHead v]).paren ((Builder.empty.str " ").str n) = _
    rw [extend_paren_shape, hinner]
  · intro h
    rw [exec_factor, outs_ifPair, if_neg (by rw [h]; exact Bool.false_ne_true)]
    rfl
  · intro h
    rw [exec_factor, outs_ifPair, if_pos h, outs_writeLit_cons, outs_nil]
    show writeList env st [" " ++ escStr n] = _
    show (match writeStr env st (" " ++ escStr n) with
      | (st2, none) => writeList env st2 []
      | (st2, some e) => (st2, some e)) = _
    rcases hw : writeStr env st (" " ++ escStr n) with ⟨st2, _ | e⟩
    · rfl
    · rfl

/-- Environment for the boolean-attribute witness: the guard is false. -/
def c5env : REnv := ⟨fun _ => false, fun _ => [], fun _ => 0, fun _ => none⟩

theorem bool_attribute_lowering_witness :
    c5env.test (SynExpr.other 3) = false
    ∧ exec c5env [Frag.ifHead (SynExpr.other 3),
        Frag.block [Frag.writeLit (" " ++ escStr "checked")]] ⟨[]⟩ = (⟨[]⟩, none) :=
  ⟨rfl, (bool_attribute_lowering Builder.empty "checked" (SynExpr.other 3)
    c5env ⟨[]⟩).2.1 rfl⟩

/-- C6: lowering a `Text::Expr` node holding the string literal `s`
produces the very same builder state as lowering a `Text::String` node
holding `s` — so every downstream observation (tokens, buffer, bytes) is
identical — and on the concrete input `"a&b"` both lower to exactly one
write of `"a&amp;b"`. -/
theorem literal_expr_equiv_text (b : Builder) (s : String) :
    genNode b (Node.text (Text.expr (SynExpr.litStr s)))
      = genNode b (Node.text (Text.string s))
    ∧ built [Node.text (Text.string "a&b")] = [Frag.writeLit "a&amp;b"]
    ∧ built [Node.text (Text.expr (SynExpr.litStr "a&b"))]
        = [Frag.writeLit "a&amp;b"] :=
  ⟨rfl, rfl, rfl⟩

/-- C7: a sink write that fails commits nothing and returns its error
value unchanged; a failing `write_str` statement aborts the whole
remaining operation sequence immediately (the result is the failing
write's, everything already committed remains in the sink, nothing after
is attempted); `?`-sequencing never runs the continuation after a
failure; execution equals replaying the planned writes in order; and
when no write fails, render returns success. -/
theorem write_error_propagation (env : REnv) :
    (∀ (st : SinkSt) (s : String) (e : Nat),
        env.writeRes st.written.length = some e →
        writeStr env st s = (st, some e))
    ∧ (∀ (st : SinkSt) (s : String) (rest : List Frag) (e : Nat),
        env.writeRes st.written.length = some e →
        exec env (Frag.writeLit s :: rest) st = (st, some e))
    ∧ (∀ (st : SinkSt) (e : Nat) (k : SinkSt → RRes),
        andThen (st, some e) k = (st, some e))
    ∧ (∀ (l : List Frag) (st : SinkSt),
        exec env l st = writeList env st (outs env l))
    ∧ (allOk env → ∀ (ns : List Node) (st : SinkSt),
        (render env ns st).2 = none) := by
  have h1 : ∀ (st : SinkSt) (s : String) (e : Nat),
      env.writeRes st.written.length = some e →
      writeStr env st s = (st, some e) := by
    intro st s e h
    unfold writeStr
    rw [h]
  refine ⟨h1, ?_, ?_, ?_, ?_⟩
  · intro st s rest e h
    rw [show exec env (Frag.writeLit s :: rest) st
      = andThen (writeStr env st s) (fun st2 => exec env rest st2) from by rw [exec]]
    rw [h1 st s e h]
    rfl
  · intro st e k
    rfl
  · intro l st
    exact exec_factor env l st
  · intro h ns st
    rw [show render env ns st = exec env (built ns) st from rfl,
      exec_allOk env h]

/-- A sink whose very first write fails with error value 7. -/
def c7env : REnv :=
  ⟨fun _ => true, fun _ => [], fun _ => 0,
   fun n => if n = 0 then some 7 else none⟩

/-- A sink that never fails. -/
def c7envOk : REnv := ⟨fun _ => true, fun _ => ["z"], fun _ => 1, fun _ => none⟩

theorem write_error_propagation_witness :
    c7env.writeRes (SinkSt.mk []).written.length = some 7
    ∧ exec c7env [Frag.writeLit "x", Frag.writeLit "y"] ⟨[]⟩ = (⟨[]⟩, some 7)
    ∧ allOk c7envOk
    ∧ (render c7envOk [Node.text (Text.string "t")] ⟨[]⟩).2 = none := by
  have h : c7env.writeRes (SinkSt.mk []).written.length = some 7 := rfl
  have hok : allOk c7envOk := fun _ => rfl
  exact ⟨h, (write_error_propagation c7env).2.1 ⟨[]⟩ "x" [Frag.writeLit "y"] 7 h,
    hok, (write_error_propagation c7envOk).2.2.2.2 hok [Node.text (Text.string "t")] ⟨[]⟩⟩

/-! C8: counterexample and amended statement. -/

/-- Write-literal operations anywhere in a token stream, blocks included. -/
def writeLitsRec : List Frag → Nat
  | [] => 0
  | .writeLit _ :: r => 1 + writeLitsRec r
  | .block b :: r => writeLitsRec b + writeLitsRec r
  | .renderExpr _ :: r => writeLitsRec r
  | .ifHead _ :: r => writeLitsRec r
  | .elseIfHead _ :: r => writeLitsRec r
  | .elseHead :: r => writeLitsRec r
  | .forHead _ _ :: r => writeLitsRec r

/-- Dynamic operations (expressions, branch entries, loop entries)
anywhere in a token stream, blocks included. -/
def dynOpsRec : List Frag → Nat
  | [] => 0
  | .writeLit _ :: r => dynOpsRec r
  | .block b :: r => dynOpsRec b + dynOpsRec r
  | .renderExpr _ :: r => 1 + dynOpsRec r
  | .ifHead _ :: r => 1 + dynOpsRec r
  | .elseIfHead _ :: r => 1 + dynOpsRec r
  | .elseHead :: r => 1 + dynOpsRec r
  | .forHead _ _ :: r => 1 + dynOpsRec r

/-- Environment for the C8 counterexample: the branch test is false,
every write succeeds. -/
def c8env : REnv := ⟨fun _ => false, fun _ => ["y"], fun _ => 0, fun _ => none⟩

/-- Template for the C8 counterexample: a static run, then an `If` whose
single clause contains another static run. -/
def c8nodes : List Node :=
  [Node.text (Text.string "x"),
   Node.if_ (If.mk [IfClause.mk (SynExpr.other 0) [Node.text (Text.string "A")]] none)]

/-- C8 as stated is false: for this render (one write call, since the
branch does not fire) the number of sink write calls (1) differs from the
number of maximal contiguous static runs (2: `"x"` and `"A"`) plus the
number of dynamic operations (1 branch entry). -/
theorem write_call_count_cex :
    (exec c8env (built c8nodes) ⟨[]⟩).1.written.length
      ≠ writeLitsRec (built c8nodes) + dynOpsRec (built c8nodes) := by
  have hb : built c8nodes
      = [Frag.writeLit "x", Frag.ifHead (SynExpr.other 0),
         Frag.block [Frag.writeLit "A"]] := rfl
  rw [exec_factor, hb]
  have ho : outs c8env [Frag.writeLit "x", Frag.ifHead (SynExpr.other 0),
      Frag.block [Frag.writeLit "A"]] = ["x"] := by
    rw [outs_writeLit_cons, outs,
      if_neg (show ¬(c8env.test (SynExpr.other 0) = true) from by decide),
      outsElse_nil]
  rw [ho]
  rw [show writeLitsRec [Frag.writeLit "x", Frag.ifHead (SynExpr.other 0),
        Frag.block [Frag.writeLit "A"]]
      + dynOpsRec [Frag.writeLit "x", Frag.ifHead (SynExpr.other 0),
        Frag.block [Frag.writeLit "A"]] = 3 from by
    simp [writeLitsRec, dynOpsRec]]
  decide

/-- A straight-line token stream: write-literals and dynamic expressions
only, no control flow. -/
def straight : List Frag → Bool
  | [] => true
  | .writeLit _ :: r => straight r
  | .renderExpr _ :: r => straight r
  | .block _ :: _ => false
  | .ifHead _ :: _ => false
  | .elseIfHead _ :: _ => false
  | .elseHead :: _ => false
  | .forHead _ _ :: _ => false

/-- Dynamic render-expression operations at the top level. -/
def countRenderOps : List Frag → Nat
  | [] => 0
  | .renderExpr _ :: r => 1 + countRenderOps r
  | _ :: r => countRenderOps r

theorem outs_length_straight (env : REnv)
    (h3 : ∀ d, (env.dynOut d).length = 1) : ∀ fs : List Frag,
    straight fs = true →
    (outs env fs).length = countWriteLit fs + countRenderOps fs := by
  intro fs
  induction fs with
  | nil => intro _; rw [outs_nil]; rfl
  | cons f r ih =>
    intro hs
    cases f with
    | writeLit s =>
      rw [outs_writeLit_cons]
      show (outs env r).length + 1 = _
      rw [ih hs]
      show _ = countWriteLit r + 1 + countRenderOps r
      omega
    | renderExpr d =>
      rw [outs_renderExpr_cons, List.length_append, h3 d, ih hs]
      show 1 + _ = countWriteLit r + (1 + countRenderOps r)
      omega
    | block b => exact absurd hs Bool.false_ne_true
    | ifHead t => exact absurd hs Bool.false_ne_true
    | elseIfHead t => exact absurd hs Bool.false_ne_true
    | elseHead => exact absurd hs Bool.false_ne_true
    | forHead p e => exact absurd hs Bool.false_ne_true

/-- C8 amended: for a straight-line operation sequence (no branches or
loops), under a render in which every write succeeds and every dynamic
expression performs exactly one sink write, the number of sink write
calls equals the number of write-literal operations (= maximal static
runs, by C2) plus the number of dynamic expression operations; and a
flush never splits the pending buffer across two writes. -/
theorem write_calls_straightline (env : REnv) (fs : List Frag) (st : SinkSt)
    (h1 : allOk env) (h2 : straight fs = true)
    (h3 : ∀ d, (env.dynOut d).length = 1) :
    (exec env fs st).1.written.length
      = st.written.length + countWriteLit fs + countRenderOps fs
    ∧ ∀ (b : Builder) (fs2 : List Frag),
        (Builder.extend b fs2).tokens = b.tokens ++ flushF b.buffer ++ fs2 := by
  constructor
  · rw [exec_allOk env h1]
    show (st.written ++ outs env fs).length = _
    rw [List.length_append, outs_length_straight env h3 fs h2]
    omega
  · intro b fs2
    rw [extend_tokens]

/-- All-success environment for the C8 witness. -/
def c8okenv : REnv := ⟨fun _ => true, fun _ => ["y"], fun _ => 0, fun _ => none⟩

/-- Straight-line stream for the C8 witness. -/
def c8fs : List Frag := [Frag.writeLit "x", Frag.renderExpr 0]

theorem write_calls_straightline_witness :
    allOk c8okenv ∧ straight c8fs = true
    ∧ (exec c8okenv c8fs ⟨[]⟩).1.written.length
        = (SinkSt.mk []).written.length + countWriteLit c8fs + countRenderOps c8fs := by
  have h1 : allOk c8okenv := fun _ => rfl
  exact ⟨h1, rfl,
    (write_calls_straightline c8okenv c8fs ⟨[]⟩ h1 rfl (fun _ => rfl)).1⟩

/-- C9: when the iterable is empty at render time, a successful render of
a template containing a `For` node produces bytes identical to rendering
the same template with the `For` node omitted entirely. -/
theorem for_empty_elim (env : REnv) (pre post body : List Node) (p : Nat)
    (e : SynExpr) (st : SinkSt) (h1 : allOk env)
    (h2 : nodesOk (pre ++ Node.for_ (For.mk p e body) :: post) = true)
    (h3 : env.iterLen e = 0) :
    joinS (exec env (built (pre ++ Node.for_ (For.mk p e body) :: post)) st).1.written
      = joinS (exec env (built (pre ++ post)) st).1.written := by
  have h2' : nodesOk (pre ++ post) = true := by
    rw [nodesOk_append, Bool.and_eq_true] at h2
    rcases h2 with ⟨hpre, hfp⟩
    have hfp2 : (nodeOk (Node.for_ (For.mk p e body)) && nodesOk post) = true := hfp
    rw [Bool.and_eq_true] at hfp2
    rw [nodesOk_append, hpre, hfp2.2]
    rfl
  rw [exec_allOk env h1, exec_allOk env h1]
  show joinS (st.written ++ outs env (built _)) = joinS (st.written ++ outs env (built _))
  rw [joinS_append, joinS_append, adeq_built env _ h2, adeq_built env _ h2',
    renderNodes_append, renderNodes_append]
  rw [show renderNodes env (Node.for_ (For.mk p e body) :: post)
    = renderNode env (Node.for_ (For.mk p e body)) ++ renderNodes env post from rfl]
  rw [show renderNode env (Node.for_ (For.mk p e body))
    = joinN (env.iterLen e) (renderNodes env body) from rfl, h3]
  rw [show joinN 0 (renderNodes env body) = "" from rfl, String.empty_append]

/-- All-success environment with empty iterables for the C9 witness. -/
def c9env : REnv := ⟨fun _ => true, fun _ => [], fun _ => 0, fun _ => none⟩

theorem for_empty_elim_witness :
    allOk c9env
    ∧ nodesOk ([Node.text (Text.string "x")]
        ++ Node.for_ (For.mk 0 (SynExpr.other 0) [Node.text (Text.string "B")])
          :: [Node.text (Text.string "y")]) = true
    ∧ c9env.iterLen (SynExpr.other 0) = 0
    ∧ joinS (exec c9env (built ([Node.text (Text.string "x")]
        ++ Node.for_ (For.mk 0 (SynExpr.other 0) [Node.text (Text.string "B")])
          :: [Node.text (Text.string "y")])) ⟨[]⟩).1.written
      = joinS (exec c9env (built ([Node.text (Text.string "x")]
          ++ [Node.text (Text.string "y")])) ⟨[]⟩).1.written := by
  have h1 : allOk c9env := fun _ => rfl
  exact ⟨h1, rfl, rfl,
    for_empty_elim c9env [Node.text (Text.string "x")] [Node.text (Text.string "y")]
      [Node.text (Text.string "B")] 0 (SynExpr.other 0) ⟨[]⟩ h1 rfl rfl⟩

/-- C10: tag and attribute names are emitted through the escaping routine
(`escStr`, which by C1 replaces `&`, `<`, `>`, `"` with entities): the
open and close tag both contain the escaped tag name, plain attributes
contribute the escaped attribute name, boolean attributes contribute the
escaped attribute name inside their guard; only the generator's own
structural delimiters appear unescaped. -/
theorem element_names_escaped (env : REnv) (name aname : String) (d : Nat)
    (v : SynExpr) :
    (∀ (id : Option SynExpr) (classes : List SynExpr) (attrs : List Attribute)
        (children : List Node) (close : Bool), nodesOk children = true →
      joinS (outs env (built [Node.element
          (Element.mk name id classes attrs children close)]))
        = "<" ++ escStr name ++ renderId env id
          ++ (if classes.isEmpty then ""
              else " class=\"" ++ renderClasses env true classes ++ "\"")
          ++ renderAttrs env attrs ++ ">" ++ renderNodes env children
          ++ (if close then "</" ++ escStr name ++ ">" else ""))
    ∧ (∀ (aname2 : String) (v2 : SynExpr) (bool2 : Bool) (rest : List Attribute),
        renderAttrs env (Attribute.mk aname2 v2 bool2 :: rest)
          = (if bool2 then (if env.test v2 then " " ++ escStr aname2 else "")
             else " " ++ escStr aname2 ++ "=\"" ++ renderE env v2 ++ "\"")
            ++ renderAttrs env rest)
    ∧ joinS (outs env (built [Node.element (Element.mk name none [] [] [] true)]))
      = "<" ++ escStr name ++ ">" ++ "</" ++ escStr name ++ ">"
    ∧ joinS (outs env (built [Node.element (Element.mk name none []
        [Attribute.mk aname (SynExpr.other d) false] [] false)]))
      = "<" ++ escStr name ++ " " ++ escStr aname ++ "=\""
        ++ joinS (env.dynOut d) ++ "\"" ++ ">"
    ∧ joinS (outs env (built [Node.element (Element.mk name none []
        [Attribute.mk aname v true] [] false)]))
      = "<" ++ escStr name
        ++ (if env.test v then " " ++ escStr aname else "") ++ ">"
    ∧ escStr "<&>\"" = "&lt;&amp;&gt;&quot;" := by
  refine ⟨?_, fun aname2 v2 bool2 rest => rfl, ?_, ?_, ?_, rfl⟩
  · intro id classes attrs children close hch
    have hok : nodesOk [Node.element (Element.mk name id classes attrs children close)]
        = true := by
      show (nodeOk (Node.element (Element.mk name id classes attrs children close))
        && nodesOk []) = true
      rw [show nodeOk (Node.element (Element.mk name id classes attrs children close))
        = nodesOk children from rfl, hch]
      rfl
    rw [adeq_built env [Node.element (Element.mk name id classes attrs children close)]
      hok]
    show renderElement env (Element.mk name id classes attrs children close) ++ "" = _
    rw [String.append_empty]
    rfl
  · rw [adeq_built env [Node.element (Element.mk name none [] [] [] true)] rfl]
    apply String.ext
    simp [renderNodes, renderNode, renderElement, renderId, renderAttrs,
      String.data_append]
  · rw [adeq_built env [Node.element (Element.mk name none []
      [Attribute.mk aname (SynExpr.other d) false] [] false)] rfl]
    apply String.ext
    simp [renderNodes, renderNode, renderElement, renderId, renderAttrs,
      renderE, String.data_append]
  · rw [adeq_built env [Node.element (Element.mk name none []
      [Attribute.mk aname v true] [] false)] rfl]
    by_cases hv : env.test v
    · apply String.ext
      simp [renderNodes, renderNode, renderElement, renderId, renderAttrs,
        hv, String.data_append]
    · apply String.ext
      simp [renderNodes, renderNode, renderElement, renderId, renderAttrs,
        hv, String.data_append]

/-- All-success environment for the C10 witness. -/
def c10env : REnv := ⟨fun _ => true, fun _ => ["z"], fun _ => 1, fun _ => none⟩

theorem element_names_escaped_witness :
    nodesOk ([] : List Node) = true
    ∧ joinS (outs c10env (built [Node.element (Element.mk "nm" none [] [] [] false)]))
      = "<" ++ escStr "nm" ++ renderId c10env none
        ++ (if ([] : List SynExpr).isEmpty then ""
            else " class=\"" ++ renderClasses c10env true [] ++ "\"")
        ++ renderAttrs c10env [] ++ ">" ++ renderNodes c10env []
        ++ (if false then "</" ++ escStr "nm" ++ ">" else "") :=
  ⟨rfl, (element_names_escaped c10env "nm" "a" 0 (SynExpr.other 2)).1
    none [] [] [] false rfl⟩

end Markup
